import Mathlib

/-!
Shallow embedding of the CHIP-8 core of chiplib, `src/chiplib.h`.

Machine integers are natural numbers; every store into a C field of width `w`
is written with an explicit `% 2^w` where the C expression can leave the range.
Arrays are total maps `Nat → Nat` together with their declared sizes; an access
whose index lies outside the declared size of `Memory.map`, `display`, `keypad`
or `stack` is modelled by `none`, with two exceptions where the byte that the
index addresses is fixed by the declarations of the structs.

The register array is declared `unsigned char V[V_REGISTER_AMOUNT]` with
`V_REGISTER_AMOUNT = 0xF`, that is fifteen cells `V[0] .. V[14]`, immediately
followed in `struct Chip8Registers` by the `unsigned char DT`.  The expression
`V[0xF]`, which every flag-setting instruction uses, therefore addresses the
byte right behind the array: the storage of `DT`.  `getV` and `setV` resolve
register index `0xF` accordingly.

`Memory.map` is the only member of `struct Chip8Memory`, and the member
`Memory` of `struct Chip8Machine` is immediately followed by the byte arrays
`display` and `keypad`.  A store to `Memory.map[a]` with `a` behind the 4096
bytes of the map therefore addresses `display[a - 4096]`, and behind the 2048
bytes of the display `keypad[a - 6144]`.  `Chip8Machine.store` resolves such
addresses accordingly; behind the keypad a store has no result.
-/

namespace Chiplib

/-! ## Constants -/

def MAX_ROM_SIZE : Nat := 0xE00
def V_REGISTER_AMOUNT : Nat := 0xF
def MEMORY_MAP_SIZE : Nat := 0x1000
def CHARACTER_ADDRESS_OFFSET : Nat := 0x50
def START_ADDRESS_OFFSET : Nat := 0x200
def STACK_SIZE : Nat := 16
def DISPLAY_WIDTH : Nat := 64
def DISPLAY_HEIGHT : Nat := 32
def KEYPAD_SIZE : Nat := 16
def CHARACTER_SET_SIZE : Nat := 80
def CHARACTER_BYTES_LENGTH : Nat := 5

/-- Error codes of `enum Error`. -/
inductive Errorable where
  | INVALID_OPCODE
  | EXCESSIVE_ROM_SIZE
  | STATUS_OK
  | UNKNOWN_ERROR
  deriving DecidableEq, Repr

/-- The numeric value of an error code, as passed to `exit`. -/
def Errorable.code : Errorable → Nat
  | .INVALID_OPCODE => 1
  | .EXCESSIVE_ROM_SIZE => 2
  | .STATUS_OK => 0
  | .UNKNOWN_ERROR => 3

/-! ## Components -/

/-- Fields of `struct Chip8Registers`.  `V` holds the `V_REGISTER_AMOUNT` cells
of the array `V`; only indices below `V_REGISTER_AMOUNT` belong to it. -/
structure Chip8Registers where
  V : Nat → Nat
  DT : Nat
  ST : Nat
  SP : Nat
  I : Nat
  PC : Nat

/-- Fields of `struct Chip8Memory`. -/
structure Chip8Memory where
  map : Nat → Nat

/-- The font table `character_set`. -/
def character_set : List Nat :=
  [0xF0, 0x90, 0x90, 0x90, 0xF0,
   0x20, 0x60, 0x20, 0x20, 0x70,
   0xF0, 0x10, 0xF0, 0x80, 0xF0,
   0xF0, 0x10, 0xF0, 0x10, 0xF0,
   0x90, 0x90, 0xF0, 0x10, 0x10,
   0xF0, 0x80, 0xF0, 0x10, 0xF0,
   0xF0, 0x80, 0xF0, 0x90, 0xF0,
   0xF0, 0x10, 0x20, 0x40, 0x40,
   0xF0, 0x90, 0xF0, 0x90, 0xF0,
   0xF0, 0x90, 0xF0, 0x10, 0xF0,
   0xF0, 0x90, 0xF0, 0x90, 0x90,
   0xE0, 0x90, 0xE0, 0x90, 0xE0,
   0xF0, 0x80, 0x80, 0x80, 0xF0,
   0xE0, 0x90, 0x90, 0x90, 0xE0,
   0xF0, 0x80, 0xF0, 0x80, 0xF0,
   0xF0, 0x80, 0xF0, 0x80, 0x80]

/-- Fields of `struct Chip8Machine`. -/
structure Chip8Machine where
  Registers : Chip8Registers
  Memory : Chip8Memory
  display : Nat → Nat
  keypad : Nat → Nat
  random_byte : Nat
  opcode : Nat
  stack : Nat → Nat

/-! ## Array access -/

/-- Array cell update: `a[i] = v`. -/
def upd (a : Nat → Nat) (i v : Nat) : Nat → Nat :=
  fun j => if j = i then v else a j

/-- Value of `machine->Registers.V[i]` for a register index `i` in `0 .. 0xF`.
Indices below `V_REGISTER_AMOUNT` read the array; index `0xF` reads the byte
behind it, which is `DT`. -/
def getV (r : Chip8Registers) (i : Nat) : Nat :=
  if i < V_REGISTER_AMOUNT then r.V i else r.DT

/-- Effect of `machine->Registers.V[i] = v` for a register index `i` in
`0 .. 0xF`; index `0xF` writes the byte behind the array, which is `DT`. -/
def setV (r : Chip8Registers) (i v : Nat) : Chip8Registers :=
  if i < V_REGISTER_AMOUNT then { r with V := upd r.V i v } else { r with DT := v }

/-- The C function `memcpy(dst + off, src, n)`, byte by byte. -/
def memcpy (dst : Nat → Nat) (off : Nat) (src : Nat → Nat) : Nat → Nat → Nat
  | 0 => dst
  | n + 1 => upd (memcpy dst off src n) (off + n) (src n)

/-- The C function `memset(dst, c, n)`, byte by byte. -/
def memset (dst : Nat → Nat) (c : Nat) : Nat → Nat → Nat
  | 0 => dst
  | n + 1 => upd (memset dst c n) n c

/-! ## Opcode field macros -/

def OPCODE_N (machine : Chip8Machine) : Nat := machine.opcode &&& 0x000F
def OPCODE_X (machine : Chip8Machine) : Nat := (machine.opcode &&& 0x0F00) >>> 8
def OPCODE_Y (machine : Chip8Machine) : Nat := (machine.opcode &&& 0x00F0) >>> 4
def OPCODE_ADDR (machine : Chip8Machine) : Nat := machine.opcode &&& 0x0FFF
def OPCODE_BYTE (machine : Chip8Machine) : Nat := machine.opcode &&& 0x00FF

/-- Read of `machine->Registers.V[i]`. -/
def Chip8Machine.v (machine : Chip8Machine) (i : Nat) : Nat :=
  getV machine.Registers i

/-- Store `machine->Registers.V[i] = v`. -/
def Chip8Machine.setv (machine : Chip8Machine) (i v : Nat) : Chip8Machine :=
  { machine with Registers := setV machine.Registers i v }

/-- Store `machine->Registers.PC = pc`. -/
def Chip8Machine.setPC (machine : Chip8Machine) (pc : Nat) : Chip8Machine :=
  { machine with Registers := { machine.Registers with PC := pc } }

/-- Value of a C comparison: `1` when it holds, `0` otherwise. -/
def cbool (p : Prop) [Decidable p] : Nat := if p then 1 else 0

/-! ## Loader -/

/-- Load character set into memory starting from `CHARACTER_ADDRESS_OFFSET`. -/
def load_charset (machine : Chip8Machine) : Chip8Machine :=
  { machine with
    Memory := ⟨memcpy machine.Memory.map CHARACTER_ADDRESS_OFFSET
      (fun i => character_set.getD i 0) CHARACTER_SET_SIZE⟩ }

/-! ## CPU instruction functions -/

/-- Instruction `00E0 - CLS`: clear the display. -/
def OP_00E0 (machine : Chip8Machine) : Chip8Machine :=
  { machine with display := memset machine.display 0 (DISPLAY_WIDTH * DISPLAY_HEIGHT) }

/-- Instruction `00EE - RET`: decrement the 8-bit stack pointer, then read the
program counter from `stack[SP]`. -/
def OP_00EE (machine : Chip8Machine) : Option Chip8Machine :=
  let sp := (machine.Registers.SP + 255) % 256
  let machine := { machine with Registers := { machine.Registers with SP := sp } }
  if machine.Registers.SP < STACK_SIZE then
    some (machine.setPC (machine.stack machine.Registers.SP))
  else none

/-- Instruction `1nnn - JP addr`. -/
def OP_1nnn (machine : Chip8Machine) : Chip8Machine :=
  machine.setPC (OPCODE_ADDR machine)

/-- Instruction `2nnn - CALL addr`: store the program counter in `stack[SP]`,
increment the 8-bit stack pointer, jump. -/
def OP_2nnn (machine : Chip8Machine) : Option Chip8Machine :=
  if machine.Registers.SP < STACK_SIZE then
    let machine := { machine with stack := upd machine.stack machine.Registers.SP machine.Registers.PC }
    let machine := { machine with
      Registers := { machine.Registers with SP := (machine.Registers.SP + 1) % 256 } }
    some (machine.setPC (OPCODE_ADDR machine))
  else none

/-- Instruction `3xkk - SE Vx, byte`. -/
def OP_3xkk (machine : Chip8Machine) : Chip8Machine :=
  if machine.v (OPCODE_X machine) = OPCODE_BYTE machine then
    machine.setPC ((machine.Registers.PC + 2) % 65536)
  else machine

/-- Instruction `4xkk - SNE Vx, byte`. -/
def OP_4xkk (machine : Chip8Machine) : Chip8Machine :=
  if machine.v (OPCODE_X machine) ≠ OPCODE_BYTE machine then
    machine.setPC ((machine.Registers.PC + 2) % 65536)
  else machine

/-- Instruction `5xy0 - SE Vx, Vy`. -/
def OP_5xy0 (machine : Chip8Machine) : Chip8Machine :=
  if machine.v (OPCODE_X machine) = machine.v (OPCODE_Y machine) then
    machine.setPC ((machine.Registers.PC + 2) % 65536)
  else machine

/-- Instruction `6xkk - LD Vx, byte`. -/
def OP_6xkk (machine : Chip8Machine) : Chip8Machine :=
  machine.setv (OPCODE_X machine) (OPCODE_BYTE machine)

/-- Instruction `7xkk - ADD Vx, byte`, with 8-bit wraparound. -/
def OP_7xkk (machine : Chip8Machine) : Chip8Machine :=
  machine.setv (OPCODE_X machine) ((machine.v (OPCODE_X machine) + OPCODE_BYTE machine) % 256)

/-- Instruction `8xy0 - LD Vx, Vy`. -/
def OP_8xy0 (machine : Chip8Machine) : Chip8Machine :=
  machine.setv (OPCODE_X machine) (machine.v (OPCODE_Y machine))

/-- Instruction `8xy1 - OR Vx, Vy`. -/
def OP_8xy1 (machine : Chip8Machine) : Chip8Machine :=
  machine.setv (OPCODE_X machine) (machine.v (OPCODE_X machine) ||| machine.v (OPCODE_Y machine))

/-- Instruction `8xy2 - AND Vx, Vy`. -/
def OP_8xy2 (machine : Chip8Machine) : Chip8Machine :=
  machine.setv (OPCODE_X machine) (machine.v (OPCODE_X machine) &&& machine.v (OPCODE_Y machine))

/-- Instruction `8xy3 - XOR Vx, Vy`. -/
def OP_8xy3 (machine : Chip8Machine) : Chip8Machine :=
  machine.setv (OPCODE_X machine) (machine.v (OPCODE_X machine) ^^^ machine.v (OPCODE_Y machine))

/-- Instruction `8xy4 - ADD Vx, Vy`: the 8-bit sum is computed first, then
`V[0xF]` receives `result < Vx`, then `Vx` receives the sum. -/
def OP_8xy4 (machine : Chip8Machine) : Chip8Machine :=
  let result := (machine.v (OPCODE_X machine) + machine.v (OPCODE_Y machine)) % 256
  let machine := machine.setv 0xF (cbool (result < machine.v (OPCODE_X machine)))
  machine.setv (OPCODE_X machine) result

/-- Instruction `8xy5 - SUB Vx, Vy`: `V[0xF]` receives `Vx > Vy` first, then
`Vx -= Vy` is evaluated on the registers as they are after that store. -/
def OP_8xy5 (machine : Chip8Machine) : Chip8Machine :=
  let machine := machine.setv 0xF
    (cbool (machine.v (OPCODE_X machine) > machine.v (OPCODE_Y machine)))
  machine.setv (OPCODE_X machine)
    ((machine.v (OPCODE_X machine) + 256 - machine.v (OPCODE_Y machine)) % 256)

/-- Instruction `8xy6 - SHR Vx`. -/
def OP_8xy6 (machine : Chip8Machine) : Chip8Machine :=
  let machine := machine.setv 0xF (machine.v (OPCODE_X machine) &&& 0x1)
  machine.setv (OPCODE_X machine) (machine.v (OPCODE_X machine) >>> 1)

/-- Instruction `8xy7 - SUBN Vx, Vy`. -/
def OP_8xy7 (machine : Chip8Machine) : Chip8Machine :=
  let machine := machine.setv 0xF
    (cbool (machine.v (OPCODE_Y machine) > machine.v (OPCODE_X machine)))
  machine.setv (OPCODE_X machine)
    ((machine.v (OPCODE_Y machine) + 256 - machine.v (OPCODE_X machine)) % 256)

/-- Instruction `8xyE - SHL Vx`, with 8-bit wraparound. -/
def OP_8xyE (machine : Chip8Machine) : Chip8Machine :=
  let machine := machine.setv 0xF (cbool (machine.v (OPCODE_X machine) ≥ 0x80))
  machine.setv (OPCODE_X machine) ((machine.v (OPCODE_X machine) <<< 1) % 256)

/-- Instruction `9xy0 - SNE Vx, Vy`. -/
def OP_9xy0 (machine : Chip8Machine) : Chip8Machine :=
  if machine.v (OPCODE_X machine) ≠ machine.v (OPCODE_Y machine) then
    machine.setPC ((machine.Registers.PC + 2) % 65536)
  else machine

/-- Instruction `Annn - LD I, addr`. -/
def OP_Annn (machine : Chip8Machine) : Chip8Machine :=
  { machine with Registers := { machine.Registers with I := OPCODE_ADDR machine } }

/-- Instruction `Bnnn - JP V0, addr`. -/
def OP_Bnnn (machine : Chip8Machine) : Chip8Machine :=
  machine.setPC ((OPCODE_ADDR machine + machine.v 0x0) % 65536)

/-- Instruction `Cxkk - RND Vx, byte`. -/
def OP_Cxkk (machine : Chip8Machine) : Chip8Machine :=
  machine.setv (OPCODE_X machine) (machine.random_byte &&& OPCODE_BYTE machine)

/-- Body of the inner loop of `OP_Dxyn` for one `column`: when the sprite pixel
is set, `V[0xF]` receives `*display_pixel == 0xFF` and the display cell is
XORed with `0xFF`.  The cell is only dereferenced when the sprite pixel is
set. -/
def Dxyn_pixel (sprite_byte x_position y_position row column : Nat)
    (machine : Chip8Machine) : Option Chip8Machine :=
  let sprite_pixel := sprite_byte &&& (0x80 >>> column)
  let index := (y_position + row) * DISPLAY_WIDTH + (x_position + column)
  if sprite_pixel ≠ 0 then
    if index < DISPLAY_WIDTH * DISPLAY_HEIGHT then
      let machine := machine.setv 0xF (cbool (machine.display index = 0xFF))
      some { machine with
        display := upd machine.display index ((machine.display index ^^^ 0xFF) % 256) }
    else none
  else some machine

/-- Inner loop of `OP_Dxyn`: the `count` columns `column, column + 1, ...`. -/
def Dxyn_columns (sprite_byte x_position y_position row : Nat) :
    Nat → Nat → Chip8Machine → Option Chip8Machine
  | 0, _, machine => some machine
  | count + 1, column, machine =>
    (Dxyn_pixel sprite_byte x_position y_position row column machine).bind
      (Dxyn_columns sprite_byte x_position y_position row count (column + 1))

/-- Body of the outer loop of `OP_Dxyn` for one `row`: read the sprite byte at
`Memory.map[I + row]`, then run the eight columns. -/
def Dxyn_row (x_position y_position row : Nat) (machine : Chip8Machine) :
    Option Chip8Machine :=
  if machine.Registers.I + row < MEMORY_MAP_SIZE then
    Dxyn_columns (machine.Memory.map (machine.Registers.I + row))
      x_position y_position row 8 0 machine
  else none

/-- Outer loop of `OP_Dxyn`: the `count` rows `row, row + 1, ...`. -/
def Dxyn_rows (x_position y_position : Nat) :
    Nat → Nat → Chip8Machine → Option Chip8Machine
  | 0, _, machine => some machine
  | count + 1, row, machine =>
    (Dxyn_row x_position y_position row machine).bind
      (Dxyn_rows x_position y_position count (row + 1))

/-- Instruction `Dxyn - DRW Vx, Vy, nibble`. -/
def OP_Dxyn (machine : Chip8Machine) : Option Chip8Machine :=
  let x_position := machine.v (OPCODE_X machine) % DISPLAY_WIDTH
  let y_position := machine.v (OPCODE_Y machine) % DISPLAY_HEIGHT
  let machine := machine.setv 0xF 0
  Dxyn_rows x_position y_position (OPCODE_N machine) 0 machine

/-- Instruction `Ex9E - SKP Vx`. -/
def OP_Ex9E (machine : Chip8Machine) : Option Chip8Machine :=
  if machine.v (OPCODE_X machine) < KEYPAD_SIZE then
    if machine.keypad (machine.v (OPCODE_X machine)) ≠ 0 then
      some (machine.setPC ((machine.Registers.PC + 2) % 65536))
    else some machine
  else none

/-- Instruction `ExA1 - SKNP Vx`. -/
def OP_ExA1 (machine : Chip8Machine) : Option Chip8Machine :=
  if machine.v (OPCODE_X machine) < KEYPAD_SIZE then
    if machine.keypad (machine.v (OPCODE_X machine)) = 0 then
      some (machine.setPC ((machine.Registers.PC + 2) % 65536))
    else some machine
  else none

/-- Instruction `Fx07 - LD Vx, DT`. -/
def OP_Fx07 (machine : Chip8Machine) : Chip8Machine :=
  machine.setv (OPCODE_X machine) machine.Registers.DT

/-- Loop of `OP_Fx0A` over the `count` keys `x, x + 1, ...`: the first pressed
key is stored in `Vx`; when the loop runs out the program counter is moved back
by two. -/
def Fx0A_scan (machine : Chip8Machine) : Nat → Nat → Chip8Machine
  | 0, _ => machine.setPC ((machine.Registers.PC + 65536 - 2) % 65536)
  | count + 1, x =>
    if machine.keypad x ≠ 0 then machine.setv (OPCODE_X machine) x
    else Fx0A_scan machine count (x + 1)

/-- Instruction `Fx0A - LD Vx, K`. -/
def OP_Fx0A (machine : Chip8Machine) : Chip8Machine :=
  Fx0A_scan machine 16 0

/-- Instruction `Fx15 - LD DT, Vx`. -/
def OP_Fx15 (machine : Chip8Machine) : Chip8Machine :=
  { machine with Registers := { machine.Registers with DT := machine.v (OPCODE_X machine) } }

/-- Instruction `Fx18 - LD ST, Vx`. -/
def OP_Fx18 (machine : Chip8Machine) : Chip8Machine :=
  { machine with Registers := { machine.Registers with ST := machine.v (OPCODE_X machine) } }

/-- Instruction `Fx1E - ADD I, Vx`, with 16-bit wraparound. -/
def OP_Fx1E (machine : Chip8Machine) : Chip8Machine :=
  { machine with
    Registers := { machine.Registers with
      I := (machine.Registers.I + machine.v (OPCODE_X machine)) % 65536 } }

/-- Instruction `Fx29 - LD F, Vx`. -/
def OP_Fx29 (machine : Chip8Machine) : Chip8Machine :=
  { machine with
    Registers := { machine.Registers with
      I := (CHARACTER_ADDRESS_OFFSET
        + machine.v (OPCODE_X machine) * CHARACTER_BYTES_LENGTH) % 65536 } }

/-- Store `machine->Memory.map[a] = v`.  Inside the map the byte `map[a]`
changes.  The map is followed in `struct Chip8Machine` by the byte arrays
`display` and `keypad`, so for the `DISPLAY_WIDTH * DISPLAY_HEIGHT` addresses
behind the map the store changes `display[a - MEMORY_MAP_SIZE]`, and for the
`KEYPAD_SIZE` addresses behind those it changes a cell of `keypad`.  Behind the
keypad there is no result. -/
def Chip8Machine.store (machine : Chip8Machine) (a v : Nat) : Option Chip8Machine :=
  if a < MEMORY_MAP_SIZE then some { machine with Memory := ⟨upd machine.Memory.map a v⟩ }
  else if a < MEMORY_MAP_SIZE + DISPLAY_WIDTH * DISPLAY_HEIGHT then
    some { machine with display := upd machine.display (a - MEMORY_MAP_SIZE) v }
  else if a < MEMORY_MAP_SIZE + DISPLAY_WIDTH * DISPLAY_HEIGHT + KEYPAD_SIZE then
    some { machine with
      keypad := upd machine.keypad (a - (MEMORY_MAP_SIZE + DISPLAY_WIDTH * DISPLAY_HEIGHT)) v }
  else none

/-- Instruction `Fx33 - LD B, Vx`. -/
def OP_Fx33 (machine : Chip8Machine) : Option Chip8Machine :=
  (machine.store machine.Registers.I ((machine.v (OPCODE_X machine) / 100) % 10)).bind
    fun machine =>
  (machine.store (machine.Registers.I + 1) ((machine.v (OPCODE_X machine) / 10) % 10)).bind
    fun machine =>
  machine.store (machine.Registers.I + 2) (machine.v (OPCODE_X machine) % 10)

/-- Loop of `OP_Fx55` over the `count` registers `x, x + 1, ...`. -/
def Fx55_loop : Nat → Nat → Chip8Machine → Option Chip8Machine
  | 0, _, machine => some machine
  | count + 1, x, machine =>
    (machine.store (machine.Registers.I + x) (machine.v x)).bind (Fx55_loop count (x + 1))

/-- Instruction `Fx55 - LD [I], Vx`: registers `0 .. X` inclusive. -/
def OP_Fx55 (machine : Chip8Machine) : Option Chip8Machine :=
  Fx55_loop (OPCODE_X machine + 1) 0 machine

/-- Loop of `OP_Fx65` over the `count` registers `x, x + 1, ...`. -/
def Fx65_loop : Nat → Nat → Chip8Machine → Option Chip8Machine
  | 0, _, machine => some machine
  | count + 1, x, machine =>
    if machine.Registers.I + x < MEMORY_MAP_SIZE then
      Fx65_loop count (x + 1) (machine.setv x (machine.Memory.map (machine.Registers.I + x)))
    else none

/-- Instruction `Fx65 - LD Vx, [I]`: registers `0 .. X` inclusive. -/
def OP_Fx65 (machine : Chip8Machine) : Option Chip8Machine :=
  Fx65_loop (OPCODE_X machine + 1) 0 machine

/-! ## Dispatch, loader and cycle -/

/-- Decodes the opcode into the corresponding instruction function and executes
it.  The result is `none` when the instruction function has no result;
otherwise it is the new machine and the returned status. -/
def execute_instruction (machine : Chip8Machine) : Option (Chip8Machine × Errorable) :=
  (match machine.opcode >>> 12 with
    | 0x0 =>
      if machine.opcode = 0x00E0 then some (OP_00E0 machine)
      else if machine.opcode = 0x00EE then OP_00EE machine
      else some machine
    | 0x1 => some (OP_1nnn machine)
    | 0x2 => OP_2nnn machine
    | 0x3 => some (OP_3xkk machine)
    | 0x4 => some (OP_4xkk machine)
    | 0x5 => some (OP_5xy0 machine)
    | 0x6 => some (OP_6xkk machine)
    | 0x7 => some (OP_7xkk machine)
    | 0x8 =>
      (match machine.opcode &&& 0x000F with
        | 0x0 => some (OP_8xy0 machine)
        | 0x1 => some (OP_8xy1 machine)
        | 0x2 => some (OP_8xy2 machine)
        | 0x3 => some (OP_8xy3 machine)
        | 0x4 => some (OP_8xy4 machine)
        | 0x5 => some (OP_8xy5 machine)
        | 0x6 => some (OP_8xy6 machine)
        | 0x7 => some (OP_8xy7 machine)
        | 0xE => some (OP_8xyE machine)
        | _ => some machine)
    | 0x9 => some (OP_9xy0 machine)
    | 0xA => some (OP_Annn machine)
    | 0xB => some (OP_Bnnn machine)
    | 0xC => some (OP_Cxkk machine)
    | 0xD => OP_Dxyn machine
    | 0xE =>
      (match machine.opcode &&& 0x00FF with
        | 0x9E => OP_Ex9E machine
        | 0xA1 => OP_ExA1 machine
        | _ => some machine)
    | 0xF =>
      (match machine.opcode &&& 0x00FF with
        | 0x07 => some (OP_Fx07 machine)
        | 0x0A => some (OP_Fx0A machine)
        | 0x15 => some (OP_Fx15 machine)
        | 0x18 => some (OP_Fx18 machine)
        | 0x1E => some (OP_Fx1E machine)
        | 0x29 => some (OP_Fx29 machine)
        | 0x33 => OP_Fx33 machine
        | 0x55 => OP_Fx55 machine
        | 0x65 => OP_Fx65 machine
        | _ => some machine)
    | _ => some machine).map fun machine => (machine, Errorable.STATUS_OK)

/-- ROM load function: `rom` is the caller's buffer, `rom_size` the number of
bytes to copy to `START_ADDRESS_OFFSET`. -/
def load_rom (machine : Chip8Machine) (rom : Nat → Nat) (rom_size : Nat) :
    Chip8Machine × Errorable :=
  if rom_size > MAX_ROM_SIZE then (machine, Errorable.EXCESSIVE_ROM_SIZE)
  else
    ({ machine with
        Memory := ⟨memcpy machine.Memory.map START_ADDRESS_OFFSET rom rom_size⟩ },
      Errorable.STATUS_OK)

/-- Machine initialization function.  The result is `none` when the function
leaves through `exit` because the ROM could not be loaded. -/
def init_machine (machine : Chip8Machine) (rom : Nat → Nat) (rom_size : Nat) :
    Option Chip8Machine :=
  let machine := load_charset machine
  let loaded := load_rom machine rom rom_size
  if loaded.2 ≠ Errorable.STATUS_OK then none
  else some (loaded.1.setPC START_ADDRESS_OFFSET)

/-- Timer step at the end of `do_cycle`: each timer is decremented when it is
positive, first `DT`, then `ST`. -/
def tick_timers (machine : Chip8Machine) : Chip8Machine :=
  let machine :=
    if machine.Registers.DT > 0 then
      { machine with Registers := { machine.Registers with DT := machine.Registers.DT - 1 } }
    else machine
  if machine.Registers.ST > 0 then
    { machine with Registers := { machine.Registers with ST := machine.Registers.ST - 1 } }
  else machine

/-- Cycle function.  `rand` is the value returned by the call of `rand()` in
this cycle.  The result is `none` when the fetch or the instruction indexes an
array outside its declared size, or when the function leaves through `exit`. -/
def do_cycle (rand : Nat) (machine : Chip8Machine) : Option Chip8Machine :=
  if machine.Registers.PC + 1 < MEMORY_MAP_SIZE then
    let machine := { machine with
      opcode := ((machine.Memory.map machine.Registers.PC <<< 8)
        ||| machine.Memory.map (machine.Registers.PC + 1)) % 65536 }
    let machine := machine.setPC ((machine.Registers.PC + 2) % 65536)
    (execute_instruction machine).bind fun result =>
      let machine := { result.1 with random_byte := rand % 256 }
      if result.2 ≠ Errorable.STATUS_OK then none
      else some (tick_timers machine)
  else none

/-! ## Concrete machines and programs -/

/-- The machine as `main.c` creates it: `struct Chip8Machine Machine = {0}`. -/
def zero_machine : Chip8Machine :=
  { Registers := { V := fun _ => 0, DT := 0, ST := 0, SP := 0, I := 0, PC := 0 }
    Memory := ⟨fun _ => 0⟩
    display := fun _ => 0
    keypad := fun _ => 0
    random_byte := 0
    opcode := 0
    stack := fun _ => 0 }

/-- A buffer holding the given bytes, zero behind them. -/
def buffer (bytes : List Nat) : Nat → Nat := fun i => bytes.getD i 0

/-- The ROM `load V0, a; load V1, b; add V0, V1`. -/
def add_rom (a b : Nat) : List Nat := [0x60, a, 0x61, b, 0x80, 0x14]

/-- Three cycles on the zero machine initialised with `add_rom a b`; `r1`,
`r2`, `r3` are the values `rand()` returns in them. -/
def run_add_rom (a b r1 r2 r3 : Nat) : Option Chip8Machine :=
  (((init_machine zero_machine (buffer (add_rom a b)) 6).bind (do_cycle r1)).bind
    (do_cycle r2)).bind (do_cycle r3)

/-- The observable registers of the end-to-end scenario: `V0`, `V1`, `V[0xF]`
and `PC`. -/
def observe (machine : Chip8Machine) : Nat × Nat × Nat × Nat :=
  (machine.v 0, machine.v 1, machine.v 0xF, machine.Registers.PC)

/-- The zero machine with the given opcode latch, leading cells of `V`, and
delay timer byte (the byte that `V[0xF]` addresses). -/
def test_machine (opcode : Nat) (regs : List Nat) (dt : Nat) : Chip8Machine :=
  { zero_machine with
    opcode := opcode
    Registers := { zero_machine.Registers with V := buffer regs, DT := dt } }

/-- Machine about to execute `80F5` (`SUB V0, VF`) with `V0 = 10` and the
byte addressed by `V[0xF]` equal to `3`. -/
def sub_flag_machine : Chip8Machine := test_machine 0x80F5 [10] 3

/-- Machine about to execute `00EE` with stack pointer `0`. -/
def ret_underflow_machine : Chip8Machine := test_machine 0x00EE [] 0

/-- The machine with the display and the byte addressed by `V[0xF]` blanked:
two machines with the same `frame` differ at most in those two places. -/
def frame (machine : Chip8Machine) : Chip8Machine :=
  { machine with
    display := fun _ => 0
    Registers := { machine.Registers with DT := 0 } }

/-- The zero machine about to execute `D011` (draw one row at `(V0, V1)`), with
`I = 0x300`, the sprite byte there, and the given display and delay timer. -/
def draw_machine (sprite_byte : Nat) (display : Nat → Nat) (dt : Nat) : Chip8Machine :=
  { zero_machine with
    opcode := 0xD011
    display := display
    Memory := ⟨upd zero_machine.Memory.map 0x300 sprite_byte⟩
    Registers := { zero_machine.Registers with I := 0x300, DT := dt } }

/-- Draw of the two-pixel sprite row `0xC0` at `(0, 0)` on a display whose cell
`(0, 0)` is lit and whose other cells are unlit. -/
def collision_machine : Chip8Machine := draw_machine 0xC0 (upd (fun _ => 0) 0 0xFF) 0

/-- Draw of the one-pixel sprite row `0x80` at `(0, 0)` on an empty display
while the delay timer holds `60`. -/
def draw_timer_machine : Chip8Machine := draw_machine 0x80 (fun _ => 0) 60

/-- Machine about to execute `8015` (`SUB V0, V1`) with `V0 = V1 = 7`. -/
def equal_operands_machine : Chip8Machine := test_machine 0x8015 [7, 7] 0

/-- The zero machine about to execute `2ABC` with `PC = 0x202` and `SP = 3`. -/
def call_machine : Chip8Machine :=
  { zero_machine with
    opcode := 0x2ABC
    Registers := { zero_machine.Registers with PC := 0x202, SP := 3 } }

/-- The zero machine about to execute `F233` (BCD of `V2`) with `V2 = 255` and
`I = 0x400`. -/
def bcd_machine : Chip8Machine :=
  { zero_machine with
    opcode := 0xF233
    Registers := { zero_machine.Registers with V := buffer [0, 0, 255], I := 0x400 } }

/-- The zero machine about to execute `F255` (dump `V0 .. V2`) with
`V0, V1, V2 = 11, 22, 33` and `I = 0x400`. -/
def dump_machine : Chip8Machine :=
  { zero_machine with
    opcode := 0xF255
    Registers := { zero_machine.Registers with V := buffer [11, 22, 33], I := 0x400 } }

/-- The zero machine with `PC = 0x200`, the given two bytes at `0x200` and
`0x201`, leading cells of `V`, delay timer byte and keypad. -/
def fetch_machine (hi lo : Nat) (regs : List Nat) (dt : Nat) (keypad : Nat → Nat) :
    Chip8Machine :=
  { zero_machine with
    keypad := keypad
    Memory := ⟨upd (upd zero_machine.Memory.map 0x200 hi) 0x201 lo⟩
    Registers := { zero_machine.Registers with V := buffer regs, DT := dt, PC := 0x200 } }

/-- Machine about to fetch `F00A` (wait for a key into `V0`) with no key
pressed and the delay timer at `5`. -/
def wait_key_machine : Chip8Machine := fetch_machine 0xF0 0x0A [] 5 (fun _ => 0)

/-- Machine about to fetch `8014` (`ADD V0, V1`) with `V0 = 1`, `V1 = 2` and
the delay timer at `10`. -/
def add_timer_machine : Chip8Machine := fetch_machine 0x80 0x14 [1, 2] 10 (fun _ => 0)

/-- Machine about to execute `F033` (BCD of `V0`) with `I = 0xFFFF`: the three
digits would go to `memory[0xFFFF]`, `memory[0x10000]` and `memory[0x10001]`,
far behind the 4096 bytes of the memory map. -/
def bcd_overrun_machine : Chip8Machine :=
  { zero_machine with
    opcode := 0xF033
    Registers := { zero_machine.Registers with I := 0xFFFF } }

/-- The host loop of `main.c` after initialisation: one `do_cycle` per input.
Each input gives the value `rand()` returns in that cycle and the keypad
state the host has written before it. -/
def run_cycles : List (Nat × (Nat → Nat)) → Chip8Machine → Option Chip8Machine
  | [], machine => some machine
  | (rand, keys) :: rest, machine =>
    (do_cycle rand { machine with keypad := keys }).bind (run_cycles rest)

/-- A program that loads `I` with `0x204` and draws the one-row sprite stored
there at `(V0, V1) = (0, 0)`: bytes `A2 04  D0 11`, then the sprite byte
`0xC0`. -/
def draw_rom : List Nat := [0xA2, 0x04, 0xD0, 0x11, 0xC0]

/-- Two cycles of `draw_rom` on the zero machine, with no key pressed. -/
def draw_rom_run : Option Chip8Machine :=
  (init_machine zero_machine (buffer draw_rom) 5).bind
    (run_cycles [(3, fun _ => 0), (5, fun _ => 0)])

/-- The zero machine with every display cell lit, about to execute `00E0`. -/
def clear_machine : Chip8Machine :=
  { zero_machine with
    opcode := 0x00E0
    display := fun _ => 0xFF }

/-- The zero machine about to execute `F033` (BCD of `V0`) with `V0 = 107` and
`I = 0xFFE`: the digits `1`, `0`, `7` go to `memory[0xFFE]`, `memory[0xFFF]`
and the byte behind the memory map. -/
def bcd_display_machine : Chip8Machine :=
  { zero_machine with
    opcode := 0xF033
    Registers := { zero_machine.Registers with V := buffer [107], I := 0xFFE } }

/-- The program `LD I, 0xFFE; LD V0, 107; LD B, V0`: bytes `AF FE  60 6B
F0 33`. -/
def bcd_rom : List Nat := [0xAF, 0xFE, 0x60, 0x6B, 0xF0, 0x33]

/-- Three cycles of `bcd_rom` on the zero machine, with no key pressed. -/
def bcd_rom_run : Option Chip8Machine :=
  (init_machine zero_machine (buffer bcd_rom) 6).bind
    (run_cycles [(0, fun _ => 0), (0, fun _ => 0), (0, fun _ => 0)])

/-! ## Decoder lemmas -/

theorem OPCODE_N_eq (m : Chip8Machine) : OPCODE_N m = m.opcode % 16 := by
  unfold OPCODE_N
  exact Nat.and_pow_two_sub_one_eq_mod m.opcode 4

theorem OPCODE_BYTE_eq (m : Chip8Machine) : OPCODE_BYTE m = m.opcode % 256 := by
  unfold OPCODE_BYTE
  exact Nat.and_pow_two_sub_one_eq_mod m.opcode 8

theorem OPCODE_ADDR_eq (m : Chip8Machine) : OPCODE_ADDR m = m.opcode % 4096 := by
  unfold OPCODE_ADDR
  exact Nat.and_pow_two_sub_one_eq_mod m.opcode 12

theorem OPCODE_X_eq (m : Chip8Machine) : OPCODE_X m = m.opcode / 256 % 16 := by
  unfold OPCODE_X
  apply Nat.eq_of_testBit_eq
  intro j
  have h1 : (0x0F00 : Nat) = (2 ^ 4 - 1) <<< 8 := by decide
  have h2 : (256 : Nat) = 2 ^ 8 := by norm_num
  have h3 : (16 : Nat) = 2 ^ 4 := by norm_num
  rw [h1, h2, h3, Nat.testBit_shiftRight, Nat.testBit_and, Nat.testBit_shiftLeft,
    Nat.testBit_mod_two_pow, Nat.testBit_two_pow_sub_one, ← Nat.shiftRight_eq_div_pow,
    Nat.testBit_shiftRight]
  simp [Bool.and_comm]

theorem OPCODE_Y_eq (m : Chip8Machine) : OPCODE_Y m = m.opcode / 16 % 16 := by
  unfold OPCODE_Y
  apply Nat.eq_of_testBit_eq
  intro j
  have h1 : (0x00F0 : Nat) = (2 ^ 4 - 1) <<< 4 := by decide
  have h3 : (16 : Nat) = 2 ^ 4 := by norm_num
  rw [h1, h3, Nat.testBit_shiftRight, Nat.testBit_and, Nat.testBit_shiftLeft,
    Nat.testBit_mod_two_pow, Nat.testBit_two_pow_sub_one, ← Nat.shiftRight_eq_div_pow,
    Nat.testBit_shiftRight]
  simp [Bool.and_comm]

theorem family_eq (w : Nat) : w >>> 12 = w / 4096 := by
  rw [Nat.shiftRight_eq_div_pow]

theorem low_nibble_eq (w : Nat) : w &&& 0x000F = w % 16 :=
  Nat.and_pow_two_sub_one_eq_mod w 4

theorem low_byte_eq (w : Nat) : w &&& 0x00FF = w % 256 :=
  Nat.and_pow_two_sub_one_eq_mod w 8

/-! ## Register file lemmas -/

@[simp] theorem setv_opcode (m : Chip8Machine) (i v : Nat) : (m.setv i v).opcode = m.opcode := rfl

@[simp] theorem setv_display (m : Chip8Machine) (i v : Nat) :
    (m.setv i v).display = m.display := rfl

@[simp] theorem setv_Memory (m : Chip8Machine) (i v : Nat) : (m.setv i v).Memory = m.Memory := rfl

@[simp] theorem OPCODE_X_setv (m : Chip8Machine) (i v : Nat) :
    OPCODE_X (m.setv i v) = OPCODE_X m := rfl

@[simp] theorem OPCODE_Y_setv (m : Chip8Machine) (i v : Nat) :
    OPCODE_Y (m.setv i v) = OPCODE_Y m := rfl

@[simp] theorem OPCODE_N_setv (m : Chip8Machine) (i v : Nat) :
    OPCODE_N (m.setv i v) = OPCODE_N m := rfl

/-- Reading a register after a store: the stored value at the same index, the
old value at any other index. -/
theorem v_setv (m : Chip8Machine) (i j v : Nat) (hi : i ≤ 0xF) (hj : j ≤ 0xF) :
    (m.setv i v).v j = if j = i then v else m.v j := by
  unfold Chip8Machine.setv Chip8Machine.v getV setV upd V_REGISTER_AMOUNT
  split_ifs <;> simp_all
  all_goals omega

theorem v_setv_same (m : Chip8Machine) (i v : Nat) (hi : i ≤ 0xF) : (m.setv i v).v i = v := by
  rw [v_setv m i i v hi hi]; simp

theorem v_setv_other (m : Chip8Machine) (i j v : Nat) (hi : i ≤ 0xF) (hj : j ≤ 0xF)
    (hne : j ≠ i) : (m.setv i v).v j = m.v j := by
  rw [v_setv m i j v hi hj]; simp [hne]

/-! ## Arithmetic and shift instructions -/

/-- Claim C2: executing `8xy4` with `x ≠ 0xF` on bytes `a = Vx`, `b = Vy`
leaves `VF = 1` when `a + b > 255` and `VF = 0` otherwise, and
`Vx = (a + b) mod 256`. -/
theorem OP_8xy4_carry (m : Chip8Machine) (x y a b : Nat)
    (hx : x < 0xF) (hy : y ≤ 0xF)
    (hop : m.opcode = 0x8004 + 0x100 * x + 0x10 * y)
    (ha : m.v x = a) (hb : m.v y = b) (ha8 : a < 256) (hb8 : b < 256) :
    execute_instruction m = some (OP_8xy4 m, Errorable.STATUS_OK) ∧
    (OP_8xy4 m).v 0xF = (if a + b > 255 then 1 else 0) ∧
    (OP_8xy4 m).v x = (a + b) % 256 := by
  have hfam : m.opcode >>> 12 = 8 := by rw [family_eq]; omega
  have hlow : m.opcode &&& 0x000F = 4 := by rw [low_nibble_eq]; omega
  have hX : OPCODE_X m = x := by rw [OPCODE_X_eq]; omega
  have hY : OPCODE_Y m = y := by rw [OPCODE_Y_eq]; omega
  refine ⟨by simp [execute_instruction, hfam, hlow], ?_, ?_⟩
  · simp only [OP_8xy4, OPCODE_X_setv, hX, hY, ha, hb]
    rw [v_setv_other _ x 0xF _ (by omega) (by omega) (by omega)]
    rw [v_setv_same _ 0xF _ (by omega)]
    unfold cbool
    split_ifs <;> omega
  · simp only [OP_8xy4, OPCODE_X_setv, hX, hY, ha, hb]
    rw [v_setv_same _ x _ (by omega)]

/-- Instance of `OP_8xy4_carry`: `8014` with `V0 = 200`, `V1 = 100` gives
`V0 = 44` and `VF = 1`. -/
theorem OP_8xy4_carry_witness :
    execute_instruction (test_machine 0x8014 [200, 100] 0)
      = some (OP_8xy4 (test_machine 0x8014 [200, 100] 0), Errorable.STATUS_OK) ∧
    (OP_8xy4 (test_machine 0x8014 [200, 100] 0)).v 0xF = 1 ∧
    (OP_8xy4 (test_machine 0x8014 [200, 100] 0)).v 0 = 44 :=
  OP_8xy4_carry (test_machine 0x8014 [200, 100] 0) 0 1 200 100
    (by decide) (by decide) (by decide) (by decide) (by decide) (by decide) (by decide)

/-- Claim C3 at `x = 0`, `y = 0xF`, `V0 = 10`, `VF = 3`: the flag store comes
before the subtraction reads `Vy`, so `8xy5` leaves `V0 = 10 - 1 = 9`, not
`(10 - 3) mod 256 = 7`. -/
theorem OP_8xy5_flag_operand :
    sub_flag_machine.v 0 = 10 ∧ sub_flag_machine.v 0xF = 3 ∧
    OPCODE_X sub_flag_machine = 0 ∧ OPCODE_Y sub_flag_machine = 0xF ∧
    (execute_instruction sub_flag_machine).map (fun r => (r.1.v 0, r.1.v 0xF, r.2))
      = some (9, 1, Errorable.STATUS_OK) ∧
    (OP_8xy5 sub_flag_machine).v 0 ≠ (10 + 256 - 3) % 256 := by
  decide

/-- With both `x` and `y` different from `0xF` the flag store of `8xy5` does
not touch an operand: `V[0xF] = 1` exactly when `a > b`, and
`Vx = (a - b) mod 256`. -/
theorem OP_8xy5_sub (m : Chip8Machine) (x y a b : Nat)
    (hx : x < 0xF) (hy : y < 0xF)
    (hop : m.opcode = 0x8005 + 0x100 * x + 0x10 * y)
    (ha : m.v x = a) (hb : m.v y = b) :
    execute_instruction m = some (OP_8xy5 m, Errorable.STATUS_OK) ∧
    (OP_8xy5 m).v 0xF = (if a > b then 1 else 0) ∧
    (OP_8xy5 m).v x = (a + 256 - b) % 256 := by
  have hfam : m.opcode >>> 12 = 8 := by rw [family_eq]; omega
  have hlow : m.opcode &&& 0x000F = 5 := by rw [low_nibble_eq]; omega
  have hX : OPCODE_X m = x := by rw [OPCODE_X_eq]; omega
  have hY : OPCODE_Y m = y := by rw [OPCODE_Y_eq]; omega
  refine ⟨by simp [execute_instruction, hfam, hlow], ?_, ?_⟩
  · simp only [OP_8xy5, OPCODE_X_setv, OPCODE_Y_setv, hX, hY, ha, hb]
    rw [v_setv_other _ x 0xF _ (by omega) (by omega) (by omega)]
    rw [v_setv_same _ 0xF _ (by omega)]
    rfl
  · simp only [OP_8xy5, OPCODE_X_setv, OPCODE_Y_setv, hX, hY]
    rw [v_setv_same _ x _ (by omega)]
    rw [v_setv_other _ 0xF x _ (by omega) (by omega) (by omega),
      v_setv_other _ 0xF y _ (by omega) (by omega) (by omega), ha, hb]

/-- Claim C4: executing `8xy6` with `x ≠ 0xF` on `v = Vx` leaves `VF = v & 1`
and `Vx = v >> 1 = v / 2`, and changes no other general register. -/
theorem OP_8xy6_shift (m : Chip8Machine) (x y v : Nat)
    (hx : x < 0xF) (hy : y ≤ 0xF)
    (hop : m.opcode = 0x8006 + 0x100 * x + 0x10 * y)
    (hv : m.v x = v) :
    execute_instruction m = some (OP_8xy6 m, Errorable.STATUS_OK) ∧
    (OP_8xy6 m).v 0xF = v &&& 1 ∧
    (OP_8xy6 m).v x = v >>> 1 ∧
    v >>> 1 = v / 2 ∧
    ∀ i, i < 0xF → i ≠ x → (OP_8xy6 m).v i = m.v i := by
  have hfam : m.opcode >>> 12 = 8 := by rw [family_eq]; omega
  have hlow : m.opcode &&& 0x000F = 6 := by rw [low_nibble_eq]; omega
  have hX : OPCODE_X m = x := by rw [OPCODE_X_eq]; omega
  refine ⟨by simp [execute_instruction, hfam, hlow], ?_, ?_, ?_, ?_⟩
  · simp only [OP_8xy6, OPCODE_X_setv, hX, hv]
    rw [v_setv_other _ x 0xF _ (by omega) (by omega) (by omega)]
    rw [v_setv_same _ 0xF _ (by omega)]
  · simp only [OP_8xy6, OPCODE_X_setv, hX]
    rw [v_setv_same _ x _ (by omega)]
    rw [v_setv_other _ 0xF x _ (by omega) (by omega) (by omega), hv]
  · simp [Nat.shiftRight_eq_div_pow]
  · intro i hi hne
    simp only [OP_8xy6, OPCODE_X_setv, hX]
    rw [v_setv_other _ x i _ (by omega) (by omega) hne]
    rw [v_setv_other _ 0xF i _ (by omega) (by omega) (by omega)]

/-- Instance of `OP_8xy6_shift`: `8106` with `V1 = 0x35` gives `VF = 1`,
`V1 = 0x1A`. -/
theorem OP_8xy6_shift_witness :
    (OP_8xy6 (test_machine 0x8106 [7, 0x35, 9] 4)).v 0xF = 1 ∧
    (OP_8xy6 (test_machine 0x8106 [7, 0x35, 9] 4)).v 1 = 0x1A ∧
    (OP_8xy6 (test_machine 0x8106 [7, 0x35, 9] 4)).v 2 = 9 :=
  have h := OP_8xy6_shift (test_machine 0x8106 [7, 0x35, 9] 4) 1 0 0x35
    (by decide) (by decide) (by decide) (by decide)
  ⟨h.2.1, h.2.2.1, h.2.2.2.2 2 (by decide) (by decide)⟩

/-- Claim C5: executing `8xyE` with `x ≠ 0xF` on `v = Vx` leaves `VF = 1` when
`v ≥ 0x80` and `VF = 0` otherwise, and `Vx = (2 * v) mod 256`. -/
theorem OP_8xyE_shift (m : Chip8Machine) (x y v : Nat)
    (hx : x < 0xF) (hy : y ≤ 0xF)
    (hop : m.opcode = 0x800E + 0x100 * x + 0x10 * y)
    (hv : m.v x = v) :
    execute_instruction m = some (OP_8xyE m, Errorable.STATUS_OK) ∧
    (OP_8xyE m).v 0xF = (if v ≥ 0x80 then 1 else 0) ∧
    (OP_8xyE m).v x = (2 * v) % 256 := by
  have hfam : m.opcode >>> 12 = 8 := by rw [family_eq]; omega
  have hlow : m.opcode &&& 0x000F = 0xE := by rw [low_nibble_eq]; omega
  have hX : OPCODE_X m = x := by rw [OPCODE_X_eq]; omega
  refine ⟨by simp [execute_instruction, hfam, hlow], ?_, ?_⟩
  · simp only [OP_8xyE, OPCODE_X_setv, hX, hv]
    rw [v_setv_other _ x 0xF _ (by omega) (by omega) (by omega)]
    rw [v_setv_same _ 0xF _ (by omega)]
    rfl
  · simp only [OP_8xyE, OPCODE_X_setv, hX]
    rw [v_setv_same _ x _ (by omega)]
    rw [v_setv_other _ 0xF x _ (by omega) (by omega) (by omega), hv]
    rw [Nat.shiftLeft_eq]; norm_num [Nat.mul_comm]

/-- Instance of `OP_8xyE_shift`: `820E` with `V2 = 0xC1` gives `VF = 1`,
`V2 = 0x82`. -/
theorem OP_8xyE_shift_witness :
    (OP_8xyE (test_machine 0x820E [0, 0, 0xC1] 0)).v 0xF = 1 ∧
    (OP_8xyE (test_machine 0x820E [0, 0, 0xC1] 0)).v 2 = 0x82 :=
  (OP_8xyE_shift (test_machine 0x820E [0, 0, 0xC1] 0) 2 0 0xC1
    (by decide) (by decide) (by decide) (by decide)).2

/-! ## Loader -/

/-- Pointwise description of `memcpy`: the `n` bytes from `off` on come from
`src`, every other byte keeps its value. -/
theorem memcpy_apply (dst src : Nat → Nat) (off n a : Nat) :
    memcpy dst off src n a = if off ≤ a ∧ a < off + n then src (a - off) else dst a := by
  induction n with
  | zero =>
    have h : ¬ (off ≤ a ∧ a < off + 0) := by omega
    rw [if_neg h]
    rfl
  | succ k ih =>
    simp only [memcpy, upd, ih]
    by_cases h : a = off + k
    · subst h; simp
    · simp only [h, if_false]
      by_cases h2 : off ≤ a ∧ a < off + k
      · have h3 : off ≤ a ∧ a < off + (k + 1) := ⟨h2.1, by omega⟩
        simp [h2, h3]
      · have h3 : ¬ (off ≤ a ∧ a < off + (k + 1)) := by omega
        simp [h2, h3]

/-- Claim C9: `load_rom` with `rom_size = MAX_ROM_SIZE` returns `STATUS_OK`,
copies `rom[i]` to `memory[0x200 + i]` for every `i < 0xE00` and leaves
`memory[0 .. 0x1FF]` as it was; with any `rom_size > MAX_ROM_SIZE` it returns
`EXCESSIVE_ROM_SIZE` and the machine, memory included, is the one it was
given. -/
theorem load_rom_size_check (m : Chip8Machine) (rom : Nat → Nat) :
    (load_rom m rom MAX_ROM_SIZE).2 = Errorable.STATUS_OK ∧
    (∀ i, i < 0xE00 → (load_rom m rom MAX_ROM_SIZE).1.Memory.map (0x200 + i) = rom i) ∧
    (∀ a, a < 0x200 → (load_rom m rom MAX_ROM_SIZE).1.Memory.map a = m.Memory.map a) ∧
    (load_rom m rom (MAX_ROM_SIZE + 1) = (m, Errorable.EXCESSIVE_ROM_SIZE)) ∧
    (∀ rom_size, rom_size > MAX_ROM_SIZE →
      load_rom m rom rom_size = (m, Errorable.EXCESSIVE_ROM_SIZE)) := by
  refine ⟨?_, ?_, ?_, ?_, ?_⟩
  · simp [load_rom]
  · intro i hi
    have e : (load_rom m rom MAX_ROM_SIZE).1.Memory.map
        = memcpy m.Memory.map START_ADDRESS_OFFSET rom MAX_ROM_SIZE := by simp [load_rom]
    have h : START_ADDRESS_OFFSET ≤ 0x200 + i ∧
        0x200 + i < START_ADDRESS_OFFSET + MAX_ROM_SIZE := by
      unfold START_ADDRESS_OFFSET MAX_ROM_SIZE; omega
    have hi2 : 0x200 + i - START_ADDRESS_OFFSET = i := by
      unfold START_ADDRESS_OFFSET; omega
    rw [e, memcpy_apply, if_pos h, hi2]
  · intro a ha
    have e : (load_rom m rom MAX_ROM_SIZE).1.Memory.map
        = memcpy m.Memory.map START_ADDRESS_OFFSET rom MAX_ROM_SIZE := by simp [load_rom]
    have h : ¬ (START_ADDRESS_OFFSET ≤ a ∧ a < START_ADDRESS_OFFSET + MAX_ROM_SIZE) := by
      unfold START_ADDRESS_OFFSET MAX_ROM_SIZE; omega
    rw [e, memcpy_apply, if_neg h]
  · simp [load_rom]
  · intro n hn
    simp [load_rom, hn]

/-- Instance of `load_rom_size_check` on the zero machine and a 6-byte
program: byte 1 of the buffer lands at `0x201`, byte `0x50` is untouched, and
a size of `0xE01` is rejected with the machine unchanged. -/
theorem load_rom_size_check_witness :
    (load_rom zero_machine (buffer (add_rom 10 5)) MAX_ROM_SIZE).1.Memory.map (0x200 + 1) = 10 ∧
    (load_rom zero_machine (buffer (add_rom 10 5)) MAX_ROM_SIZE).1.Memory.map 0x50 = 0 ∧
    load_rom zero_machine (buffer (add_rom 10 5)) 0xE01
      = (zero_machine, Errorable.EXCESSIVE_ROM_SIZE) :=
  have h := load_rom_size_check zero_machine (buffer (add_rom 10 5))
  ⟨h.2.1 1 (by decide), h.2.2.1 0x50 (by decide), h.2.2.2.2 0xE01 (by decide)⟩

/-! ## Return with an empty stack -/

/-- Counterexample to claim C10: on the machine with `SP = 0` and opcode
`00EE`, `execute_instruction` does not finish inside the stack bounds with a
status other than `STATUS_OK`. -/
theorem OP_00EE_no_error_policy :
    ret_underflow_machine.Registers.SP = 0 ∧ ret_underflow_machine.opcode = 0x00EE ∧
    ¬ ∃ m e, execute_instruction ret_underflow_machine = some (m, e)
      ∧ e ≠ Errorable.STATUS_OK := by
  refine ⟨rfl, rfl, ?_⟩
  rintro ⟨m, e, h, -⟩
  have hnone : execute_instruction ret_underflow_machine = none := rfl
  rw [hnone] at h
  cases h

/-- Claim C10 as amended: with `SP = 0`, `00EE` decrements the 8-bit stack
pointer to `255`, a slot outside `stack[0 .. 15]`, so the read of the new
program counter is outside the stack and the instruction has no defined
result; and whenever `execute_instruction` returns, it returns `STATUS_OK`. -/
theorem OP_00EE_underflow (m : Chip8Machine)
    (hsp : m.Registers.SP = 0) (hop : m.opcode = 0x00EE) :
    (m.Registers.SP + 255) % 256 = 255 ∧ STACK_SIZE ≤ 255 ∧
    OP_00EE m = none ∧ execute_instruction m = none ∧
    ∀ m0 r, execute_instruction m0 = some r → r.2 = Errorable.STATUS_OK := by
  have h00EE : OP_00EE m = none := by simp [OP_00EE, hsp, STACK_SIZE]
  refine ⟨by simp [hsp], by decide, h00EE, ?_, ?_⟩
  · have hfam : m.opcode >>> 12 = 0 := by rw [hop]; rfl
    simp [execute_instruction, hfam, hop, h00EE]
  · intro m0 r h
    unfold execute_instruction at h
    rw [Option.map_eq_some'] at h
    obtain ⟨m1, -, rfl⟩ := h
    rfl

/-- Instance of `OP_00EE_underflow` on the zero machine with opcode `00EE`. -/
theorem OP_00EE_underflow_witness :
    OP_00EE ret_underflow_machine = none ∧ execute_instruction ret_underflow_machine = none :=
  have h := OP_00EE_underflow ret_underflow_machine rfl rfl
  ⟨h.2.2.1, h.2.2.2.1⟩

/-! ## Sprite drawing -/

/-- Claim C8 on a lit cell followed by an unlit one: every display cell is
`0x00` or `0xFF` and the draw is in bounds; the sprite row `0xC0` turns cell
`(0, 0)` from lit to unlit, a collision, and then lights cell `(1, 0)`; the
flag holds the outcome of the last set pixel only, so `D011` ends with
`V[0xF] = 0`. -/
theorem OP_Dxyn_last_pixel_wins :
    (∀ i, collision_machine.display i = 0x00 ∨ collision_machine.display i = 0xFF) ∧
    collision_machine.display 0 = 0xFF ∧ collision_machine.display 1 = 0 ∧
    collision_machine.Memory.map collision_machine.Registers.I = 0xC0 ∧
    collision_machine.v (OPCODE_X collision_machine) % 64 ≤ 56 ∧
    collision_machine.v (OPCODE_Y collision_machine) % 32 + OPCODE_N collision_machine ≤ 32 ∧
    collision_machine.Registers.I + OPCODE_N collision_machine ≤ 4096 ∧
    (execute_instruction collision_machine).map
        (fun r => (r.1.display 0, r.1.display 1, r.1.v 0xF, r.2))
      = some (0, 0xFF, 0, Errorable.STATUS_OK) := by
  refine ⟨?_, by decide⟩
  intro i
  by_cases hi : i = 0
  · right; subst hi; rfl
  · left; simp [collision_machine, draw_machine, upd, hi]

/-- Claim C6 at a draw with the delay timer at `60`: `D011` on an empty display
with sprite byte `0x80` is in bounds, lights cell `(0, 0)`, and leaves the
delay timer at `0`: the stores to `V[0xF]` land in the timer byte. -/
theorem OP_Dxyn_overwrites_delay_timer :
    draw_timer_machine.Registers.DT = 60 ∧
    draw_timer_machine.v (OPCODE_X draw_timer_machine) % 64 + 7 ≤ 63 ∧
    draw_timer_machine.v (OPCODE_Y draw_timer_machine) % 32 + OPCODE_N draw_timer_machine ≤ 32 ∧
    draw_timer_machine.Registers.I + OPCODE_N draw_timer_machine ≤ 4096 ∧
    (execute_instruction draw_timer_machine).map
        (fun r => (r.1.display 0, r.1.Registers.DT, r.2))
      = some (0xFF, 0, Errorable.STATUS_OK) := by
  decide

/-- One column step: when the sprite pixel is set and the cell lies in the
display, the cell is XORed with `0xFF` and the flag byte receives whether the
cell was lit; when the sprite pixel is clear nothing changes.  Nothing but
the display and the flag byte is touched. -/
theorem Dxyn_pixel_spec (sb x y row col : Nat) (m : Chip8Machine)
    (hb : sb &&& (0x80 >>> col) ≠ 0 → (y + row) * 64 + (x + col) < 2048) :
    ∃ m', Dxyn_pixel sb x y row col m = some m' ∧ frame m' = frame m ∧
      m'.display = (if sb &&& (0x80 >>> col) ≠ 0 then
        upd m.display ((y + row) * 64 + (x + col))
          ((m.display ((y + row) * 64 + (x + col)) ^^^ 0xFF) % 256)
        else m.display) ∧
      m'.Registers.DT = (if sb &&& (0x80 >>> col) ≠ 0 then
        cbool (m.display ((y + row) * 64 + (x + col)) = 0xFF) else m.Registers.DT) := by
  unfold Dxyn_pixel
  by_cases hbit : sb &&& (0x80 >>> col) ≠ 0
  · have hidx : (y + row) * DISPLAY_WIDTH + (x + col) < DISPLAY_WIDTH * DISPLAY_HEIGHT :=
      hb hbit
    simp only []
    rw [if_pos hbit, if_pos hidx, if_pos hbit, if_pos hbit]
    refine ⟨_, rfl, ?_, ?_, ?_⟩
    · simp [frame, Chip8Machine.setv, setV, V_REGISTER_AMOUNT]
    · simp [DISPLAY_WIDTH]
    · simp [Chip8Machine.setv, setV, V_REGISTER_AMOUNT, DISPLAY_WIDTH]
  · simp only []
    rw [if_neg hbit, if_neg hbit, if_neg hbit]
    exact ⟨m, rfl, rfl, rfl, rfl⟩

theorem cbool_le_one (p : Prop) [Decidable p] : cbool p ≤ 1 := by
  unfold cbool; split_ifs <;> omega

/-- The column loop over columns `c0 .. c0 + k - 1` of one sprite row: every
cell of a set sprite pixel is XORed with `0xFF` once, every other cell keeps
its value, and the flag byte ends as the lit state that the cell of the last
set pixel had before the row was drawn (unchanged when no pixel is set). -/
theorem Dxyn_columns_spec (sb x y row : Nat) : ∀ (k c0 : Nat) (m : Chip8Machine),
    (∀ c, c0 ≤ c → c < c0 + k → sb &&& (0x80 >>> c) ≠ 0 →
      (y + row) * 64 + (x + c) < 2048) →
    ∃ m', Dxyn_columns sb x y row k c0 m = some m' ∧ frame m' = frame m ∧
      (∀ c, c0 ≤ c → c < c0 + k →
        m'.display ((y + row) * 64 + (x + c)) =
          if sb &&& (0x80 >>> c) ≠ 0 then
            (m.display ((y + row) * 64 + (x + c)) ^^^ 0xFF) % 256
          else m.display ((y + row) * 64 + (x + c))) ∧
      (∀ i, (∀ c, c0 ≤ c → c < c0 + k → i ≠ (y + row) * 64 + (x + c)) →
        m'.display i = m.display i) ∧
      ((∀ c, c0 ≤ c → c < c0 + k → sb &&& (0x80 >>> c) = 0) →
        m'.Registers.DT = m.Registers.DT) ∧
      (∀ c, c0 ≤ c → c < c0 + k → sb &&& (0x80 >>> c) ≠ 0 →
        (∀ c', c < c' → c' < c0 + k → sb &&& (0x80 >>> c') = 0) →
        m'.Registers.DT = cbool (m.display ((y + row) * 64 + (x + c)) = 0xFF)) ∧
      (m.Registers.DT ≤ 1 → m'.Registers.DT ≤ 1) := by
  intro k
  induction k with
  | zero =>
    intro c0 m _
    refine ⟨m, rfl, rfl, ?_, ?_, ?_, ?_, ?_⟩
    · intro c h1 h2; omega
    · intro i _; rfl
    · intro _; rfl
    · intro c h1 h2; omega
    · intro h; exact h
  | succ k ih =>
    intro c0 m hb
    obtain ⟨m1, h1, hf1, hd1, hdt1⟩ :=
      Dxyn_pixel_spec sb x y row c0 m (hb c0 (le_refl c0) (by omega))
    obtain ⟨m', h2, hf2, hA, hB, hF0, hF1, hF2⟩ :=
      ih (c0 + 1) m1 (fun c hc1 hc2 => hb c (by omega) (by omega))
    have hm1 : ∀ i, i ≠ (y + row) * 64 + (x + c0) → m1.display i = m.display i := by
      intro i hi
      rw [hd1]
      split_ifs
      · simp [upd, hi]
      · rfl
    have hrun : Dxyn_columns sb x y row (k + 1) c0 m = some m' := by
      show (Dxyn_pixel sb x y row c0 m).bind _ = some m'
      rw [h1]
      exact h2
    refine ⟨m', hrun, hf2.trans hf1, ?_, ?_, ?_, ?_, ?_⟩
    · intro c hc1 hc2
      by_cases hcc : c = c0
      · subst hcc
        rw [hB _ (fun c' h1' _ => by omega), hd1]
        split_ifs
        · simp [upd]
        · rfl
      · rw [hA c (by omega) (by omega), hm1 _ (by omega)]
    · intro i hi
      rw [hB i (fun c h1' h2' => hi c (by omega) (by omega)),
        hm1 i (hi c0 (le_refl c0) (by omega))]
    · intro hz
      rw [hF0 (fun c h1' h2' => hz c (by omega) (by omega)), hdt1,
        if_neg (not_not.mpr (hz c0 (le_refl c0) (by omega)))]
    · intro c hc1 hc2 hbit hlast
      by_cases hcc : c = c0
      · subst hcc
        rw [hF0 (fun c' h1' h2' => hlast c' (by omega) (by omega)), hdt1, if_pos hbit]
      · rw [hF1 c (by omega) (by omega) hbit (fun c' h1' h2' => hlast c' h1' (by omega)),
          hm1 _ (by omega)]
    · intro hle
      apply hF2
      rw [hdt1]
      split_ifs
      · exact cbool_le_one _
      · exact hle

/-- Two machines with the same `frame` agree on memory, on the cells of `V`,
on `ST`, `SP`, `I`, `PC`, on the keypad, the stack and the opcode latch. -/
theorem frame_fields {m' m : Chip8Machine} (h : frame m' = frame m) :
    m'.Memory = m.Memory ∧ m'.Registers.V = m.Registers.V ∧
    m'.Registers.ST = m.Registers.ST ∧ m'.Registers.SP = m.Registers.SP ∧
    m'.Registers.I = m.Registers.I ∧ m'.Registers.PC = m.Registers.PC ∧
    m'.keypad = m.keypad ∧ m'.stack = m.stack ∧ m'.opcode = m.opcode ∧
    m'.random_byte = m.random_byte :=
  ⟨congrArg (fun s => s.Memory) h, congrArg (fun s => s.Registers.V) h,
    congrArg (fun s => s.Registers.ST) h, congrArg (fun s => s.Registers.SP) h,
    congrArg (fun s => s.Registers.I) h, congrArg (fun s => s.Registers.PC) h,
    congrArg (fun s => s.keypad) h, congrArg (fun s => s.stack) h,
    congrArg (fun s => s.opcode) h, congrArg (fun s => s.random_byte) h⟩

theorem frame_setv_flag (m : Chip8Machine) (v : Nat) : frame (m.setv 0xF v) = frame m := by
  simp [frame, Chip8Machine.setv, setV, V_REGISTER_AMOUNT]

/-- The row loop over rows `r0 .. r0 + k - 1` of a sprite that stays inside the
display and inside memory: inside the rectangle a cell is XORed with `0xFF`
exactly when its sprite bit is set, outside it nothing changes. -/
theorem Dxyn_rows_spec (x y : Nat) (hx : x + 7 ≤ 63) : ∀ (k r0 : Nat) (m : Chip8Machine),
    y + r0 + k ≤ 32 → m.Registers.I + r0 + k ≤ 4096 →
    ∃ m', Dxyn_rows x y k r0 m = some m' ∧ frame m' = frame m ∧
      (∀ r c, r0 ≤ r → r < r0 + k → c < 8 →
        m'.display ((y + r) * 64 + (x + c)) =
          if m.Memory.map (m.Registers.I + r) &&& (0x80 >>> c) ≠ 0 then
            (m.display ((y + r) * 64 + (x + c)) ^^^ 0xFF) % 256
          else m.display ((y + r) * 64 + (x + c))) ∧
      (∀ i, (∀ r c, r0 ≤ r → r < r0 + k → c < 8 → i ≠ (y + r) * 64 + (x + c)) →
        m'.display i = m.display i) ∧
      (m.Registers.DT ≤ 1 → m'.Registers.DT ≤ 1) := by
  intro k
  induction k with
  | zero =>
    intro r0 m _ _
    refine ⟨m, rfl, rfl, ?_, ?_, ?_⟩
    · intro r c h1 h2; omega
    · intro i _; rfl
    · intro h; exact h
  | succ k ih =>
    intro r0 m hy hI
    obtain ⟨m1, h1, hf1, hA1, hB1, -, -, hF1⟩ :=
      Dxyn_columns_spec (m.Memory.map (m.Registers.I + r0)) x y r0 8 0 m
        (fun c _ hc _ => by omega)
    obtain ⟨hmem, -, -, -, hI1, -⟩ := frame_fields hf1
    obtain ⟨m', h2, hf2, hA, hB, hF⟩ := ih (r0 + 1) m1 (by omega) (by rw [hI1]; omega)
    have hrow : Dxyn_row x y r0 m = some m1 := by
      unfold Dxyn_row
      rw [if_pos (by unfold MEMORY_MAP_SIZE; omega)]
      exact h1
    have hrun : Dxyn_rows x y (k + 1) r0 m = some m' := by
      show (Dxyn_row x y r0 m).bind _ = some m'
      rw [hrow]
      exact h2
    refine ⟨m', hrun, hf2.trans hf1, ?_, ?_, ?_⟩
    · intro r c hr1 hr2 hc
      by_cases hrr : r = r0
      · subst hrr
        rw [hB _ (fun r' c' h1' _ hc' => by omega), hA1 c (Nat.zero_le c) (by omega)]
      · rw [hA r c (by omega) (by omega) hc, hmem, hI1,
          hB1 _ (fun c' _ hc' => by omega)]
    · intro i hi
      rw [hB i (fun r c h1' h2' hc => hi r c (by omega) (by omega) hc),
        hB1 i (fun c _ hc => hi r0 c (le_refl r0) (by omega) (by omega))]
    · intro hle
      exact hF (hF1 hle)

/-- Effect of `Dxyn` when the sprite stays inside the display and inside
memory (`x0 + 7 ≤ 63`, `y0 + n ≤ 32`, `I + n ≤ 4096` for `x0 = Vx mod 64`,
`y0 = Vy mod 32`): the instruction completes without leaving an array; the
cell of row `r < n`, column `c < 8` is XORed with `0xFF` exactly when bit
`0x80 >> c` of `memory[I + r]` is set; every cell outside the rectangle,
memory, `I`, `PC`, `SP`, `ST` and the cells `V[0] .. V[14]` keep their values;
the byte addressed by `V[0xF]`, which is the delay timer, ends as `0` or `1`
whatever it held before. -/
theorem OP_Dxyn_frame (m : Chip8Machine) (x y n x0 y0 : Nat)
    (hx : x ≤ 0xF) (hy : y ≤ 0xF) (hn : n ≤ 0xF)
    (hop : m.opcode = 0xD000 + 0x100 * x + 0x10 * y + n)
    (hx0 : m.v x % 64 = x0) (hy0 : m.v y % 32 = y0)
    (hxb : x0 + 7 ≤ 63) (hyb : y0 + n ≤ 32) (hI : m.Registers.I + n ≤ 4096) :
    ∃ m', execute_instruction m = some (m', Errorable.STATUS_OK) ∧
      (∀ r c, r < n → c < 8 →
        m'.display ((y0 + r) * 64 + (x0 + c)) =
          if m.Memory.map (m.Registers.I + r) &&& (0x80 >>> c) ≠ 0 then
            (m.display ((y0 + r) * 64 + (x0 + c)) ^^^ 0xFF) % 256
          else m.display ((y0 + r) * 64 + (x0 + c))) ∧
      (∀ i, (∀ r c, r < n → c < 8 → i ≠ (y0 + r) * 64 + (x0 + c)) →
        m'.display i = m.display i) ∧
      m'.Memory = m.Memory ∧ m'.Registers.I = m.Registers.I ∧
      m'.Registers.PC = m.Registers.PC ∧ m'.Registers.SP = m.Registers.SP ∧
      m'.Registers.ST = m.Registers.ST ∧ m'.Registers.V = m.Registers.V ∧
      m'.Registers.DT ≤ 1 := by
  have hfam : m.opcode >>> 12 = 0xD := by rw [family_eq]; omega
  have hX : OPCODE_X m = x := by rw [OPCODE_X_eq]; omega
  have hY : OPCODE_Y m = y := by rw [OPCODE_Y_eq]; omega
  have hN : OPCODE_N m = n := by rw [OPCODE_N_eq]; omega
  obtain ⟨m', hrun, hf, hA, hB, hF⟩ :=
    Dxyn_rows_spec x0 y0 hxb n 0 (m.setv 0xF 0) (by omega)
      (by
        have : (m.setv 0xF 0).Registers.I = m.Registers.I :=
          (frame_fields (frame_setv_flag m 0)).2.2.2.2.1
        rw [this]; omega)
  obtain ⟨hmem, hV, hST, hSP, hI', hPC, -⟩ := frame_fields (hf.trans (frame_setv_flag m 0))
  have hop' : OP_Dxyn m = some m' := by
    unfold OP_Dxyn
    simp only [OPCODE_N_setv, hX, hY, hN, hx0, hy0, DISPLAY_WIDTH, DISPLAY_HEIGHT]
    exact hrun
  have hI0 : (m.setv 0xF 0).Registers.I = m.Registers.I :=
    (frame_fields (frame_setv_flag m 0)).2.2.2.2.1
  have hM0 : (m.setv 0xF 0).Memory = m.Memory := rfl
  refine ⟨m', by simp [execute_instruction, hfam, hop'], ?_, ?_, hmem, hI', hPC, hSP, hST, hV,
    hF (by simp [Chip8Machine.setv, setV, V_REGISTER_AMOUNT])⟩
  · intro r c hr hc
    have := hA r c (Nat.zero_le r) (by omega) hc
    rw [hI0, hM0] at this
    exact this
  · intro i hi
    exact hB i (fun r c _ hr hc => hi r c (by omega) hc)

/-- The sprite byte `0x80 >> c` has exactly the bit of column `c` set. -/
theorem single_bit : ∀ c, c < 8 → ∀ j, j < 8 →
    ((0x80 >>> c) &&& (0x80 >>> j) ≠ 0 ↔ j = c) := by
  decide

theorem v_of_lt (m : Chip8Machine) (i : Nat) (hi : i < 0xF) : m.v i = m.Registers.V i := by
  simp [Chip8Machine.v, getV, V_REGISTER_AMOUNT, hi]

theorem v_flag (m : Chip8Machine) : m.v 0xF = m.Registers.DT := by
  simp [Chip8Machine.v, getV, V_REGISTER_AMOUNT]

/-- One execution of `Dxy1` whose sprite byte is the single bit `0x80 >> c`,
with the target cell inside the display: exactly the target cell is XORed
with `0xFF`, and the flag byte receives whether it was lit. -/
theorem Dxy1_single (m : Chip8Machine) (x y c : Nat)
    (hx : x ≤ 0xF) (hy : y ≤ 0xF) (hc : c ≤ 7)
    (hop : m.opcode = 0xD001 + 0x100 * x + 0x10 * y)
    (hcol : m.v x % 64 + c ≤ 63) (hI : m.Registers.I ≤ 4095)
    (hs : m.Memory.map m.Registers.I = 0x80 >>> c) :
    ∃ m1, execute_instruction m = some (m1, Errorable.STATUS_OK) ∧ frame m1 = frame m ∧
      m1.display = upd m.display (m.v y % 32 * 64 + (m.v x % 64 + c))
        ((m.display (m.v y % 32 * 64 + (m.v x % 64 + c)) ^^^ 0xFF) % 256) ∧
      m1.Registers.DT = cbool (m.display (m.v y % 32 * 64 + (m.v x % 64 + c)) = 0xFF) := by
  have hfam : m.opcode >>> 12 = 0xD := by rw [family_eq]; omega
  have hX : OPCODE_X m = x := by rw [OPCODE_X_eq]; omega
  have hY : OPCODE_Y m = y := by rw [OPCODE_Y_eq]; omega
  have hN : OPCODE_N m = 1 := by rw [OPCODE_N_eq]; omega
  have hy32 : m.v y % 32 < 32 := Nat.mod_lt _ (by norm_num)
  have hbit : ∀ j, j < 8 → (0x80 >>> c &&& 0x80 >>> j ≠ 0 ↔ j = c) :=
    single_bit c (by omega)
  obtain ⟨m1, h1, hf1, hA, hB, -, hF, -⟩ :=
    Dxyn_columns_spec (0x80 >>> c) (m.v x % 64) (m.v y % 32) 0 8 0 (m.setv 0xF 0)
      (fun j _ hj hb => by
        have : j = c := (hbit j (by omega)).mp hb
        omega)
  have hrun : OP_Dxyn m = some m1 := by
    unfold OP_Dxyn
    simp only [OPCODE_N_setv, hX, hY, hN, DISPLAY_WIDTH, DISPLAY_HEIGHT]
    show (Dxyn_row _ _ 0 (m.setv 0xF 0)).bind _ = some m1
    have hrow : Dxyn_row (m.v x % 64) (m.v y % 32) 0 (m.setv 0xF 0) = some m1 := by
      unfold Dxyn_row
      have hI0 : (m.setv 0xF 0).Registers.I = m.Registers.I :=
        (frame_fields (frame_setv_flag m 0)).2.2.2.2.1
      rw [hI0, if_pos (by unfold MEMORY_MAP_SIZE; omega), setv_Memory, Nat.add_zero, hs]
      exact h1
    rw [hrow]
    rfl
  refine ⟨m1, by simp [execute_instruction, hfam, hrun], hf1.trans (frame_setv_flag m 0), ?_, ?_⟩
  · funext i
    simp only [Nat.add_zero, setv_display] at hA hB
    by_cases hin : m.v y % 32 * 64 + m.v x % 64 ≤ i ∧ i < m.v y % 32 * 64 + m.v x % 64 + 8
    · obtain ⟨j, hj, rfl⟩ : ∃ j, j < 8 ∧ i = m.v y % 32 * 64 + (m.v x % 64 + j) :=
        ⟨i - (m.v y % 32 * 64 + m.v x % 64), by omega, by omega⟩
      rw [hA j (Nat.zero_le j) (by omega)]
      by_cases hjc : j = c
      · subst hjc
        rw [if_pos ((hbit j hj).mpr rfl)]
        simp [upd]
      · rw [if_neg (fun h => hjc ((hbit j hj).mp h))]
        have : m.v y % 32 * 64 + (m.v x % 64 + j) ≠ m.v y % 32 * 64 + (m.v x % 64 + c) := by
          omega
        simp [upd, this]
    · rw [hB i (fun j _ hj => by omega)]
      have : i ≠ m.v y % 32 * 64 + (m.v x % 64 + c) := by omega
      simp [upd, this]
  · have := hF c (Nat.zero_le c) (by omega) ((hbit c (by omega)).mpr rfl)
      (fun j hj1 hj2 => by
        by_contra hne
        have : j = c := (hbit j (by omega)).mp hne
        omega)
    simpa using this

/-- Claim C7: with `x` and `y` different from `0xF`, a sprite byte whose only
set bit is `0x80 >> c`, and the target cell `(Vx mod 64 + c, Vy mod 32)` inside
the display and unlit, the first `Dxy1` lights the cell and leaves `VF = 0`;
the second `Dxy1` turns it unlit again and leaves `VF = 1`; afterwards the
whole framebuffer is the one before the first draw. -/
theorem Dxy1_draw_twice (m : Chip8Machine) (x y c : Nat)
    (hx : x < 0xF) (hy : y < 0xF) (hc : c ≤ 7)
    (hop : m.opcode = 0xD001 + 0x100 * x + 0x10 * y)
    (hcol : m.v x % 64 + c ≤ 63) (hI : m.Registers.I ≤ 4095)
    (hs : m.Memory.map m.Registers.I = 0x80 >>> c)
    (hcell : m.display (m.v y % 32 * 64 + (m.v x % 64 + c)) = 0) :
    ∃ m1 m2,
      execute_instruction m = some (m1, Errorable.STATUS_OK) ∧
      m1.display (m.v y % 32 * 64 + (m.v x % 64 + c)) = 0xFF ∧ m1.v 0xF = 0 ∧
      execute_instruction m1 = some (m2, Errorable.STATUS_OK) ∧
      m2.display (m.v y % 32 * 64 + (m.v x % 64 + c)) = 0 ∧ m2.v 0xF = 1 ∧
      m2.display = m.display := by
  obtain ⟨m1, hrun1, hf1, hd1, hdt1⟩ := Dxy1_single m x y c (by omega) (by omega) hc hop hcol hI hs
  obtain ⟨hmem, hV, -, -, hI1, -, -, -, hop1, -⟩ := frame_fields hf1
  have hvx : m1.v x = m.v x := by rw [v_of_lt m1 x hx, v_of_lt m x hx, hV]
  have hvy : m1.v y = m.v y := by rw [v_of_lt m1 y hy, v_of_lt m y hy, hV]
  obtain ⟨m2, hrun2, -, hd2, hdt2⟩ := Dxy1_single m1 x y c (by omega) (by omega) hc
    (by rw [hop1]; exact hop) (by rw [hvx]; exact hcol) (by rw [hI1]; exact hI)
    (by rw [hmem, hI1]; exact hs)
  rw [hvx, hvy] at hd2 hdt2
  have hlit : m1.display (m.v y % 32 * 64 + (m.v x % 64 + c)) = 0xFF := by
    rw [hd1, hcell]; simp [upd]
  refine ⟨m1, m2, hrun1, hlit, ?_, hrun2, ?_, ?_, ?_⟩
  · rw [v_flag, hdt1, hcell]; rfl
  · rw [hd2, hlit]; simp [upd]
  · rw [v_flag, hdt2, hlit]; rfl
  · rw [hd2, hlit, hd1]
    funext i
    by_cases hi : i = m.v y % 32 * 64 + (m.v x % 64 + c)
    · subst hi; simp [upd, hcell]
    · simp [upd, hi]

/-- Instance of `Dxy1_draw_twice`: `D011` with `V0 = V1 = 0`, sprite byte
`0x80` and an empty display toggles cell `(0, 0)` on and off again. -/
theorem Dxy1_draw_twice_witness :
    ∃ m1 m2,
      execute_instruction (draw_machine 0x80 (fun _ => 0) 0)
        = some (m1, Errorable.STATUS_OK) ∧
      m1.display 0 = 0xFF ∧ m1.v 0xF = 0 ∧
      execute_instruction m1 = some (m2, Errorable.STATUS_OK) ∧
      m2.display 0 = 0 ∧ m2.v 0xF = 1 ∧
      m2.display = (draw_machine 0x80 (fun _ => 0) 0).display :=
  Dxy1_draw_twice (draw_machine 0x80 (fun _ => 0) 0) 0 1 0
    (by decide) (by decide) (by decide) (by decide) (by decide) (by decide) (by decide)
    (by decide)

/-! ## Cycle lemmas -/

/-- The big-endian fetch of two bytes `hi`, `lo` is the word `hi * 256 + lo`. -/
theorem fetch_word (hi lo : Nat) (hhi : hi < 256) (hlo : lo < 256) :
    ((hi <<< 8) ||| lo) % 65536 = hi * 256 + lo := by
  have h : hi <<< 8 ||| lo = 2 ^ 8 * hi + lo := by
    rw [Nat.shiftLeft_eq, Nat.mul_comm]
    exact (Nat.mul_add_lt_is_or (by simpa using hlo) hi).symm
  rw [h]
  omega

/-- Whenever `execute_instruction` returns, the status is `STATUS_OK`. -/
theorem execute_instruction_status (m : Chip8Machine) (r : Chip8Machine × Errorable)
    (h : execute_instruction m = some r) : r.2 = Errorable.STATUS_OK := by
  unfold execute_instruction at h
  rw [Option.map_eq_some'] at h
  obtain ⟨m1, -, rfl⟩ := h
  rfl

/-- One cycle, given the two bytes at `PC` and the outcome of the fetched
instruction. -/
theorem do_cycle_eq (rand : Nat) (m m2 : Chip8Machine) (hi lo : Nat)
    (hpc : m.Registers.PC + 1 < 4096)
    (hhi : m.Memory.map m.Registers.PC = hi) (hlo : m.Memory.map (m.Registers.PC + 1) = lo)
    (hhi8 : hi < 256) (hlo8 : lo < 256)
    (hexec : execute_instruction
      (Chip8Machine.setPC { m with opcode := hi * 256 + lo } ((m.Registers.PC + 2) % 65536))
        = some (m2, Errorable.STATUS_OK)) :
    do_cycle rand m = some (tick_timers { m2 with random_byte := rand % 256 }) := by
  unfold do_cycle
  rw [if_pos (by unfold MEMORY_MAP_SIZE; exact hpc)]
  simp only [hhi, hlo, fetch_word hi lo hhi8 hlo8]
  rw [hexec]
  rfl

/-- Dispatch of `6xkk`. -/
theorem execute_6xkk (m : Chip8Machine) (x kk : Nat) (hx : x ≤ 0xF) (hkk : kk < 256)
    (hop : m.opcode = 0x6000 + 0x100 * x + kk) :
    execute_instruction m = some (m.setv x kk, Errorable.STATUS_OK) := by
  have hfam : m.opcode >>> 12 = 6 := by rw [family_eq]; omega
  have hX : OPCODE_X m = x := by rw [OPCODE_X_eq]; omega
  have hB : OPCODE_BYTE m = kk := by rw [OPCODE_BYTE_eq]; omega
  simp [execute_instruction, hfam, OP_6xkk, hX, hB]

/-- Dispatch of `8xy4`. -/
theorem execute_8xy4 (m : Chip8Machine) (x y : Nat) (hx : x ≤ 0xF) (hy : y ≤ 0xF)
    (hop : m.opcode = 0x8004 + 0x100 * x + 0x10 * y) :
    execute_instruction m = some
      ((m.setv 0xF (cbool ((m.v x + m.v y) % 256 < m.v x))).setv x ((m.v x + m.v y) % 256),
        Errorable.STATUS_OK) := by
  have hfam : m.opcode >>> 12 = 8 := by rw [family_eq]; omega
  have hlow : m.opcode &&& 0x000F = 4 := by rw [low_nibble_eq]; omega
  have hX : OPCODE_X m = x := by rw [OPCODE_X_eq]; omega
  have hY : OPCODE_Y m = y := by rw [OPCODE_Y_eq]; omega
  simp [execute_instruction, hfam, hlow, OP_8xy4, hX, hY]

/-- The timer step decrements the delay timer unless it is zero. -/
theorem tick_timers_DT (m : Chip8Machine) :
    (tick_timers m).Registers.DT = m.Registers.DT - 1 := by
  unfold tick_timers
  by_cases h1 : m.Registers.DT > 0 <;> by_cases h2 : m.Registers.ST > 0 <;> simp [h1, h2]
  all_goals omega

/-- The timer step decrements the sound timer unless it is zero. -/
theorem tick_timers_ST (m : Chip8Machine) :
    (tick_timers m).Registers.ST = m.Registers.ST - 1 := by
  unfold tick_timers
  by_cases h1 : m.Registers.DT > 0 <;> by_cases h2 : m.Registers.ST > 0 <;> simp [h1, h2]
  all_goals omega

/-- The timer step touches nothing but the two timers. -/
theorem tick_timers_rest (m : Chip8Machine) :
    (tick_timers m).Memory = m.Memory ∧ (tick_timers m).Registers.V = m.Registers.V ∧
    (tick_timers m).Registers.PC = m.Registers.PC ∧
    (tick_timers m).Registers.SP = m.Registers.SP ∧
    (tick_timers m).Registers.I = m.Registers.I ∧ (tick_timers m).display = m.display ∧
    (tick_timers m).keypad = m.keypad ∧ (tick_timers m).stack = m.stack ∧
    (tick_timers m).opcode = m.opcode ∧ (tick_timers m).random_byte = m.random_byte := by
  unfold tick_timers
  by_cases h1 : m.Registers.DT > 0 <;> by_cases h2 : m.Registers.ST > 0 <;> simp [h1, h2]

/-- A cycle that fetches `6xkk` with `x ≠ 0xF` while both timers are zero:
`V[x]` becomes `kk`, the program counter advances by two, memory and the
timers are unchanged. -/
theorem cycle_6xkk (rand : Nat) (m : Chip8Machine) (x kk : Nat)
    (hx : x < 0xF) (hkk : kk < 256) (hpc : m.Registers.PC + 2 < 4096)
    (hhi : m.Memory.map m.Registers.PC = 0x60 + x)
    (hlo : m.Memory.map (m.Registers.PC + 1) = kk)
    (hDT : m.Registers.DT = 0) (hST : m.Registers.ST = 0) :
    ∃ m', do_cycle rand m = some m' ∧ m'.Memory = m.Memory ∧
      m'.Registers.PC = m.Registers.PC + 2 ∧ m'.Registers.V = upd m.Registers.V x kk ∧
      m'.Registers.DT = 0 ∧ m'.Registers.ST = 0 := by
  have hmod : (m.Registers.PC + 2) % 65536 = m.Registers.PC + 2 := by omega
  have c := do_cycle_eq rand m _ (0x60 + x) kk (by omega) hhi hlo (by omega) hkk
    (execute_6xkk _ x kk (by omega) hkk
      (by show (0x60 + x) * 256 + kk = 0x6000 + 0x100 * x + kk; omega))
  obtain ⟨tM, tV, tPC, -⟩ := tick_timers_rest
    { (Chip8Machine.setv (Chip8Machine.setPC { m with opcode := (0x60 + x) * 256 + kk }
        ((m.Registers.PC + 2) % 65536)) x kk) with random_byte := rand % 256 }
  refine ⟨_, c, ?_, ?_, ?_, ?_, ?_⟩
  · rw [tM]; rfl
  · rw [tPC]
    simp [Chip8Machine.setv, setV, V_REGISTER_AMOUNT, Chip8Machine.setPC, hx, hmod]
  · rw [tV]
    simp [Chip8Machine.setv, setV, V_REGISTER_AMOUNT, Chip8Machine.setPC, hx]
  · rw [tick_timers_DT]
    simp [Chip8Machine.setv, setV, V_REGISTER_AMOUNT, Chip8Machine.setPC, hx, hDT]
  · rw [tick_timers_ST]
    simp [Chip8Machine.setv, setV, V_REGISTER_AMOUNT, Chip8Machine.setPC, hx, hST]

/-- A cycle that fetches `8xy4` with `x`, `y ≠ 0xF` while the sound timer is
zero: `V[x]` becomes the 8-bit sum, the program counter advances by two, and the
carry stored in `V[0xF]`, the delay timer byte, is counted down to zero by the
timer step of the same cycle. -/
theorem cycle_8xy4 (rand : Nat) (m : Chip8Machine) (x y : Nat)
    (hx : x < 0xF) (hy : y < 0xF) (hpc : m.Registers.PC + 2 < 4096)
    (hhi : m.Memory.map m.Registers.PC = 0x80 + x)
    (hlo : m.Memory.map (m.Registers.PC + 1) = 0x10 * y + 4)
    (hST : m.Registers.ST = 0) :
    ∃ m', do_cycle rand m = some m' ∧ m'.Memory = m.Memory ∧
      m'.Registers.PC = m.Registers.PC + 2 ∧
      m'.Registers.V = upd m.Registers.V x ((m.Registers.V x + m.Registers.V y) % 256) ∧
      m'.Registers.DT = 0 ∧ m'.Registers.ST = 0 := by
  have hmod : (m.Registers.PC + 2) % 65536 = m.Registers.PC + 2 := by omega
  have c := do_cycle_eq rand m _ (0x80 + x) (0x10 * y + 4) (by omega) hhi hlo (by omega)
    (by omega)
    (execute_8xy4 _ x y (by omega) (by omega)
      (by show (0x80 + x) * 256 + (0x10 * y + 4) = 0x8004 + 0x100 * x + 0x10 * y; omega))
  refine ⟨_, c, ?_, ?_, ?_, ?_, ?_⟩
  · rw [(tick_timers_rest _).1]; rfl
  · rw [(tick_timers_rest _).2.2.1]
    simp [Chip8Machine.setv, setV, V_REGISTER_AMOUNT, Chip8Machine.setPC, hx, hmod]
  · rw [(tick_timers_rest _).2.1]
    simp [Chip8Machine.setv, setV, V_REGISTER_AMOUNT, Chip8Machine.setPC, hx, hy,
      Chip8Machine.v, getV]
  · rw [tick_timers_DT]
    have hle := cbool_le_one
      (((Chip8Machine.setPC { m with opcode := (0x80 + x) * 256 + (0x10 * y + 4) }
          ((m.Registers.PC + 2) % 65536)).v x
        + (Chip8Machine.setPC { m with opcode := (0x80 + x) * 256 + (0x10 * y + 4) }
          ((m.Registers.PC + 2) % 65536)).v y) % 256
        < (Chip8Machine.setPC { m with opcode := (0x80 + x) * 256 + (0x10 * y + 4) }
          ((m.Registers.PC + 2) % 65536)).v x)
    simp only [Chip8Machine.setv, setV, V_REGISTER_AMOUNT, hx, if_true, lt_irrefl, if_false]
    omega
  · rw [tick_timers_ST]
    simp [Chip8Machine.setv, setV, V_REGISTER_AMOUNT, Chip8Machine.setPC, hx, hST]

/-! ## End-to-end scenario -/

/-- Claim C1 as the code behaves: for all bytes `a`, `b` and all values of
`rand()`, three cycles on the zero machine initialised with the ROM
`[0x60, a, 0x61, b, 0x80, 0x14]` leave `V0 = (a + b) mod 256`, `V1 = b`,
`PC = 0x200 + 6`, and `V[0xF] = 0` whether or not `a + b > 255`: the carry
that `8xy4` stores in `V[0xF]` sits in the delay timer byte, and the timer
step of the same cycle counts it down to zero. -/
theorem add_rom_run (a b r1 r2 r3 : Nat) (ha : a < 256) (hb : b < 256) :
    (run_add_rom a b r1 r2 r3).map observe = some ((a + b) % 256, b, 0, 0x206) := by
  have hM0 : init_machine zero_machine (buffer (add_rom a b)) 6 = some
      ((load_rom (load_charset zero_machine) (buffer (add_rom a b)) 6).1.setPC
        START_ADDRESS_OFFSET) := by
    simp [init_machine, load_rom, MAX_ROM_SIZE]
  generalize hM : (load_rom (load_charset zero_machine) (buffer (add_rom a b)) 6).1.setPC
    START_ADDRESS_OFFSET = M0 at hM0
  have hmem0 : ∀ i, i < 6 → M0.Memory.map (0x200 + i) = (add_rom a b).getD i 0 := by
    intro i hi
    have e : M0.Memory.map = memcpy (load_charset zero_machine).Memory.map 0x200
        (buffer (add_rom a b)) 6 := by
      subst hM
      simp [Chip8Machine.setPC, load_rom, MAX_ROM_SIZE, START_ADDRESS_OFFSET]
    rw [e, memcpy_apply, if_pos (by omega), Nat.add_sub_cancel_left]
    rfl
  have hV0 : M0.Registers.V = fun _ => 0 := by subst hM; rfl
  have hDT0 : M0.Registers.DT = 0 := by subst hM; rfl
  have hST0 : M0.Registers.ST = 0 := by subst hM; rfl
  have hPC0 : M0.Registers.PC = 0x200 := by subst hM; rfl
  have b0 : M0.Memory.map 0x200 = 0x60 := hmem0 0 (by omega)
  have b1 : M0.Memory.map 0x201 = a := hmem0 1 (by omega)
  have b2 : M0.Memory.map 0x202 = 0x61 := hmem0 2 (by omega)
  have b3 : M0.Memory.map 0x203 = b := hmem0 3 (by omega)
  have b4 : M0.Memory.map 0x204 = 0x80 := hmem0 4 (by omega)
  have b5 : M0.Memory.map 0x205 = 0x14 := hmem0 5 (by omega)
  obtain ⟨M1, c1, hmem1, hPC1, hV1, hDT1, hST1⟩ := cycle_6xkk r1 M0 0 a (by norm_num) ha
    (by rw [hPC0]; norm_num) (by rw [hPC0]; exact b0) (by rw [hPC0]; exact b1) hDT0 hST0
  rw [hPC0] at hPC1
  norm_num at hPC1
  obtain ⟨M2, c2, hmem2, hPC2, hV2, -, hST2⟩ := cycle_6xkk r2 M1 1 b (by norm_num) hb
    (by rw [hPC1]; norm_num) (by rw [hPC1, hmem1]; exact b2) (by rw [hPC1, hmem1]; exact b3)
    hDT1 hST1
  rw [hPC1] at hPC2
  norm_num at hPC2
  obtain ⟨M3, c3, -, hPC3, hV3, hDT3, -⟩ := cycle_8xy4 r3 M2 0 1 (by norm_num) (by norm_num)
    (by rw [hPC2]; norm_num) (by rw [hPC2, hmem2, hmem1]; exact b4)
    (by rw [hPC2, hmem2, hmem1]; exact b5) hST2
  rw [hPC2] at hPC3
  norm_num at hPC3
  simp only [run_add_rom, hM0, Option.some_bind, c1, c2, c3, Option.map_some', observe,
    Chip8Machine.v, getV, V_REGISTER_AMOUNT]
  simp [hV3, hV2, hV1, hV0, hDT3, hPC3, upd]

/-- Instance of `add_rom_run` at `a = 200`, `b = 100`, where `a + b > 255`:
the run ends with `V0 = 44`, `V1 = 100`, `V[0xF] = 0`, `PC = 0x206`. -/
theorem add_rom_carry_lost :
    200 + 100 > 255 ∧
    (run_add_rom 200 100 7 8 9).map observe = some (44, 100, 0, 0x206) :=
  ⟨by decide, add_rom_run 200 100 7 8 9 (by decide) (by decide)⟩

/-! ## Register file and decoder -/

/-- Claim C11 against the declaration `unsigned char V[V_REGISTER_AMOUNT]`:
the array has `0xF = 15` cells, so the indices `0x0 .. 0xE` are valid and
distinct from the delay timer, but index `0xF` is not an index of the array;
a store to `V[0xF]` lands in `DT` and leaves the fifteen cells alone, and a
read of `V[0xF]` yields `DT`. -/
theorem V_index_0xF_is_DT :
    V_REGISTER_AMOUNT = 15 ∧ ¬ (0xF < V_REGISTER_AMOUNT) ∧
    (∀ (m : Chip8Machine) (i v : Nat), i < V_REGISTER_AMOUNT →
      (m.setv i v).Registers.V i = v ∧ (m.setv i v).Registers.DT = m.Registers.DT) ∧
    (∀ (m : Chip8Machine) (v : Nat),
      (m.setv 0xF v).Registers.DT = v ∧ (m.setv 0xF v).Registers.V = m.Registers.V) ∧
    (∀ m : Chip8Machine, m.v 0xF = m.Registers.DT) := by
  refine ⟨rfl, by decide, ?_, ?_, ?_⟩
  · intro m i v hi
    simp [Chip8Machine.setv, setV, hi, upd]
  · intro m v
    simp [Chip8Machine.setv, setV, V_REGISTER_AMOUNT]
  · intro m
    simp [Chip8Machine.v, getV, V_REGISTER_AMOUNT]

/-- Instance of `V_index_0xF_is_DT`: on the zero machine with delay timer `60`
the store `V[0xF] = 1` changes the delay timer to `1`, whereas the store
`V[0xE] = 1` leaves it at `60`. -/
theorem V_index_0xF_is_DT_witness :
    (test_machine 0 [] 60).Registers.DT = 60 ∧
    ((test_machine 0 [] 60).setv 0xF 1).Registers.DT = 1 ∧
    ((test_machine 0 [] 60).setv 0xE 1).Registers.DT = 60 :=
  ⟨rfl, (V_index_0xF_is_DT.2.2.2.1 (test_machine 0 [] 60) 1).1,
    (V_index_0xF_is_DT.2.2.1 (test_machine 0 [] 60) 0xE 1 (by decide)).2⟩

/-- Claim C18: for every 16-bit opcode word the decoded fields satisfy
`N, X, Y < 16`, `BYTE < 256`, `ADDR < 4096`, `BYTE = 16 * Y + N`,
`ADDR = 256 * X + BYTE`, and the word is `4096 * (w >> 12) + ADDR` with the
family nibble `w >> 12` below `16`. -/
theorem decode_lossless (m : Chip8Machine) (hw : m.opcode < 65536) :
    OPCODE_N m < 16 ∧ OPCODE_X m < 16 ∧ OPCODE_Y m < 16 ∧
    OPCODE_BYTE m < 256 ∧ OPCODE_ADDR m < 4096 ∧
    OPCODE_BYTE m = 16 * OPCODE_Y m + OPCODE_N m ∧
    OPCODE_ADDR m = 256 * OPCODE_X m + OPCODE_BYTE m ∧
    m.opcode = 4096 * (m.opcode >>> 12) + OPCODE_ADDR m ∧
    m.opcode >>> 12 < 16 := by
  rw [OPCODE_N_eq, OPCODE_X_eq, OPCODE_Y_eq, OPCODE_BYTE_eq, OPCODE_ADDR_eq, family_eq]
  omega

/-- Instance of `decode_lossless` for the word `0xD123`: family `0xD`,
`X = 1`, `Y = 2`, `N = 3`, `BYTE = 0x23`, `ADDR = 0x123`. -/
theorem decode_lossless_witness :
    OPCODE_N (test_machine 0xD123 [] 0) < 16 ∧ OPCODE_X (test_machine 0xD123 [] 0) < 16 ∧
    OPCODE_Y (test_machine 0xD123 [] 0) < 16 ∧
    OPCODE_BYTE (test_machine 0xD123 [] 0) < 256 ∧
    OPCODE_ADDR (test_machine 0xD123 [] 0) < 4096 ∧
    OPCODE_BYTE (test_machine 0xD123 [] 0)
      = 16 * OPCODE_Y (test_machine 0xD123 [] 0) + OPCODE_N (test_machine 0xD123 [] 0) ∧
    OPCODE_ADDR (test_machine 0xD123 [] 0)
      = 256 * OPCODE_X (test_machine 0xD123 [] 0) + OPCODE_BYTE (test_machine 0xD123 [] 0) ∧
    (test_machine 0xD123 [] 0).opcode
      = 4096 * ((test_machine 0xD123 [] 0).opcode >>> 12)
        + OPCODE_ADDR (test_machine 0xD123 [] 0) ∧
    (test_machine 0xD123 [] 0).opcode >>> 12 < 16 :=
  decode_lossless (test_machine 0xD123 [] 0) (by decide)

/-- Claim C19 at `a = b = 7`: subtracting equal operands needs no borrow, yet
`8xy5` stores `Vx > Vy`, which is `0`; the claim requires `VF = 1`. -/
theorem OP_8xy5_equal_operands :
    equal_operands_machine.v 0 = 7 ∧ equal_operands_machine.v 1 = 7 ∧
    OPCODE_X equal_operands_machine = 0 ∧ OPCODE_Y equal_operands_machine = 1 ∧
    (execute_instruction equal_operands_machine).map (fun r => (r.1.v 0xF, r.1.v 0, r.2))
      = some (0, 0, Errorable.STATUS_OK) := by
  decide

/-! ## Call and return -/

/-- Claim C15: with `SP < 16`, executing `2nnn` stores the program counter in
`stack[SP]`, sets `SP` to `SP + 1` and `PC` to `nnn`, and changes no other
stack slot; executing `00EE` right afterwards restores `PC` and `SP` to their
values before the call and changes no stack slot. -/
theorem call_then_return (m : Chip8Machine) (nnn : Nat)
    (hsp : m.Registers.SP < 16) (hnnn : nnn < 4096) (hop : m.opcode = 0x2000 + nnn) :
    ∃ m1, execute_instruction m = some (m1, Errorable.STATUS_OK) ∧
      m1.stack m.Registers.SP = m.Registers.PC ∧
      m1.Registers.SP = m.Registers.SP + 1 ∧ m1.Registers.PC = nnn ∧
      (∀ i, i ≠ m.Registers.SP → m1.stack i = m.stack i) ∧
      ∃ m2, execute_instruction { m1 with opcode := 0x00EE } = some (m2, Errorable.STATUS_OK) ∧
        m2.Registers.PC = m.Registers.PC ∧ m2.Registers.SP = m.Registers.SP ∧
        m2.stack = m1.stack := by
  have hfam : m.opcode >>> 12 = 2 := by rw [family_eq]; omega
  have haddr : OPCODE_ADDR m = nnn := by rw [OPCODE_ADDR_eq]; omega
  have hsp1 : (m.Registers.SP + 1) % 256 = m.Registers.SP + 1 := by omega
  have hcall : OP_2nnn m = some
      (Chip8Machine.setPC
        { m with
          stack := upd m.stack m.Registers.SP m.Registers.PC
          Registers := { m.Registers with SP := m.Registers.SP + 1 } } nnn) := by
    unfold OP_2nnn
    rw [if_pos (by unfold STACK_SIZE; exact hsp)]
    simp only [hsp1]
    rw [← haddr]
    rfl
  have hexec : execute_instruction m = (OP_2nnn m).map (fun x => (x, Errorable.STATUS_OK)) := by
    simp [execute_instruction, hfam]
  rw [hcall, Option.map_some'] at hexec
  refine ⟨_, hexec, ?_, rfl, rfl, ?_, ?_⟩
  · simp [Chip8Machine.setPC, upd]
  · intro i hi
    simp [Chip8Machine.setPC, upd, hi]
  · have hret : OP_00EE
        { (Chip8Machine.setPC
            { m with
              stack := upd m.stack m.Registers.SP m.Registers.PC
              Registers := { m.Registers with SP := m.Registers.SP + 1 } } nnn) with
          opcode := 0x00EE } = some
        (Chip8Machine.setPC
          { m with
            opcode := 0x00EE
            stack := upd m.stack m.Registers.SP m.Registers.PC } m.Registers.PC) := by
      have hdec : (m.Registers.SP + 1 + 255) % 256 = m.Registers.SP := by omega
      unfold OP_00EE
      simp only [Chip8Machine.setPC, hdec]
      rw [if_pos (by unfold STACK_SIZE; exact hsp)]
      simp [upd]
    have hfam0 : (0x00EE : Nat) >>> 12 = 0 := by decide
    have hexec2 : execute_instruction
        { (Chip8Machine.setPC
            { m with
              stack := upd m.stack m.Registers.SP m.Registers.PC
              Registers := { m.Registers with SP := m.Registers.SP + 1 } } nnn) with
          opcode := 0x00EE } = (OP_00EE
        { (Chip8Machine.setPC
            { m with
              stack := upd m.stack m.Registers.SP m.Registers.PC
              Registers := { m.Registers with SP := m.Registers.SP + 1 } } nnn) with
          opcode := 0x00EE }).map (fun x => (x, Errorable.STATUS_OK)) := by
      simp [execute_instruction, hfam0]
    rw [hret, Option.map_some'] at hexec2
    exact ⟨_, hexec2, rfl, rfl, rfl⟩

/-- Instance of `call_then_return`: `2ABC` on the zero machine with
`PC = 0x202` and `SP = 3`, followed by `00EE`. -/
theorem call_then_return_witness :
    ∃ m1, execute_instruction (call_machine) = some (m1, Errorable.STATUS_OK) ∧
      m1.stack 3 = 0x202 ∧ m1.Registers.SP = 4 ∧ m1.Registers.PC = 0xABC ∧
      (∀ i, i ≠ 3 → m1.stack i = call_machine.stack i) ∧
      ∃ m2, execute_instruction { m1 with opcode := 0x00EE } = some (m2, Errorable.STATUS_OK) ∧
        m2.Registers.PC = 0x202 ∧ m2.Registers.SP = 3 ∧ m2.stack = m1.stack :=
  call_then_return call_machine 0xABC (by decide) (by decide) (by decide)

/-! ## Memory instructions -/

/-- A store inside the memory map succeeds and changes one byte. -/
theorem store_eq (m : Chip8Machine) (a v : Nat) (h : a < 4096) :
    m.store a v = some { m with Memory := ⟨upd m.Memory.map a v⟩ } := by
  unfold Chip8Machine.store
  rw [if_pos (by unfold MEMORY_MAP_SIZE; exact h)]

/-- The three stores of `Fx33` when `I + 2` is inside the memory map. -/
theorem OP_Fx33_eq (m : Chip8Machine) (hI : m.Registers.I + 2 ≤ 4095) :
    OP_Fx33 m = some { m with
      Memory := ⟨upd (upd (upd m.Memory.map m.Registers.I (m.v (OPCODE_X m) / 100 % 10))
        (m.Registers.I + 1) (m.v (OPCODE_X m) / 10 % 10))
        (m.Registers.I + 2) (m.v (OPCODE_X m) % 10)⟩ } := by
  unfold OP_Fx33
  rw [store_eq m _ _ (by omega)]
  simp only [Option.some_bind]
  rw [store_eq _ _ _ (by show m.Registers.I + 1 < 4096; omega)]
  simp only [Option.some_bind]
  rw [store_eq _ _ _ (by show m.Registers.I + 2 < 4096; omega)]
  rfl

/-- Claim C12: for every register index `x`, byte `v = Vx` and `I` with
`I + 2 ≤ 4095`, `Fx33` stores the hundreds, tens and ones digits `h`, `t`, `o`
of `v` (each in `0 .. 9`, `100 h + 10 t + o = v`) at `memory[I]`,
`memory[I + 1]`, `memory[I + 2]`, and changes no other memory byte and no
register. -/
theorem OP_Fx33_bcd (m : Chip8Machine) (x v : Nat)
    (hx : x ≤ 0xF) (hop : m.opcode = 0xF033 + 0x100 * x)
    (hv : m.v x = v) (hv8 : v < 256) (hI : m.Registers.I + 2 ≤ 4095) :
    ∃ m', execute_instruction m = some (m', Errorable.STATUS_OK) ∧
      m'.Memory.map m.Registers.I = v / 100 % 10 ∧
      m'.Memory.map (m.Registers.I + 1) = v / 10 % 10 ∧
      m'.Memory.map (m.Registers.I + 2) = v % 10 ∧
      v / 100 % 10 ≤ 9 ∧ v / 10 % 10 ≤ 9 ∧ v % 10 ≤ 9 ∧
      100 * (v / 100 % 10) + 10 * (v / 10 % 10) + v % 10 = v ∧
      (∀ a, a ≠ m.Registers.I → a ≠ m.Registers.I + 1 → a ≠ m.Registers.I + 2 →
        m'.Memory.map a = m.Memory.map a) ∧
      m'.Registers = m.Registers := by
  have hfam : m.opcode >>> 12 = 0xF := by rw [family_eq]; omega
  have hlow : m.opcode &&& 0x00FF = 0x33 := by rw [low_byte_eq]; omega
  have hX : OPCODE_X m = x := by rw [OPCODE_X_eq]; omega
  have hexec : execute_instruction m = (OP_Fx33 m).map (fun s => (s, Errorable.STATUS_OK)) := by
    simp [execute_instruction, hfam, hlow]
  rw [OP_Fx33_eq m hI, Option.map_some', hX, hv] at hexec
  refine ⟨_, hexec, ?_, ?_, ?_, by omega, by omega, by omega, by omega, ?_, rfl⟩
  · simp [upd]
  · simp [upd]
  · simp [upd]
  · intro a h0 h1 h2
    simp [upd, h0, h1, h2]

/-- Instance of `OP_Fx33_bcd` for `v = 255` at `I = 0x400`: the three bytes are
`2`, `5`, `5`. -/
theorem OP_Fx33_bcd_witness :
    ∃ m', execute_instruction bcd_machine = some (m', Errorable.STATUS_OK) ∧
      m'.Memory.map 0x400 = 2 ∧ m'.Memory.map 0x401 = 5 ∧ m'.Memory.map 0x402 = 5 ∧
      2 ≤ 9 ∧ 5 ≤ 9 ∧ 5 ≤ 9 ∧ 100 * 2 + 10 * 5 + 5 = 255 ∧
      (∀ a, a ≠ 0x400 → a ≠ 0x401 → a ≠ 0x402 → m'.Memory.map a = bcd_machine.Memory.map a) ∧
      m'.Registers = bcd_machine.Registers :=
  OP_Fx33_bcd bcd_machine 2 255 (by decide) (by decide) (by decide) (by decide) (by decide)

/-! ## Font table -/

/-- After `init_machine` the font region `0x50 .. 0x9F` holds the font table,
whatever ROM of admissible size was copied to `0x200`. -/
theorem init_machine_font (m : Chip8Machine) (rom : Nat → Nat) (rom_size : Nat)
    (hsize : rom_size ≤ MAX_ROM_SIZE) :
    ∃ m1, init_machine m rom rom_size = some m1 ∧
      m1.Registers.PC = START_ADDRESS_OFFSET ∧
      ∀ i, i < 80 → m1.Memory.map (0x50 + i) = character_set.getD i 0 := by
  have hnot : ¬ rom_size > MAX_ROM_SIZE := Nat.not_lt.mpr hsize
  have hinit : init_machine m rom rom_size = some
      ((load_rom (load_charset m) rom rom_size).1.setPC START_ADDRESS_OFFSET) := by
    simp [init_machine, load_rom, hnot]
  refine ⟨_, hinit, rfl, ?_⟩
  intro i hi
  have e : ((load_rom (load_charset m) rom rom_size).1.setPC START_ADDRESS_OFFSET).Memory.map
      = memcpy (memcpy m.Memory.map CHARACTER_ADDRESS_OFFSET
          (fun i => character_set.getD i 0) CHARACTER_SET_SIZE)
        START_ADDRESS_OFFSET rom rom_size := by
    simp [Chip8Machine.setPC, load_rom, load_charset, hnot]
  have h1 : ¬ (START_ADDRESS_OFFSET ≤ 0x50 + i ∧
      0x50 + i < START_ADDRESS_OFFSET + rom_size) := by
    unfold START_ADDRESS_OFFSET; omega
  have h2 : CHARACTER_ADDRESS_OFFSET ≤ 0x50 + i ∧
      0x50 + i < CHARACTER_ADDRESS_OFFSET + CHARACTER_SET_SIZE := by
    unfold CHARACTER_ADDRESS_OFFSET CHARACTER_SET_SIZE; omega
  have h3 : 0x50 + i - CHARACTER_ADDRESS_OFFSET = i := by
    unfold CHARACTER_ADDRESS_OFFSET; omega
  rw [e, memcpy_apply, if_neg h1, memcpy_apply, if_pos h2, h3]

/-- Claim C20: for every ROM of size at most `MAX_ROM_SIZE` and every digit
`d ≤ 15`, on a machine with the memory that `init_machine` produced,
executing `Fx29` with `Vx = d` sets `I = 0x50 + 5 * d`, and
`memory[I + k] = character_set[5 * d + k]` for `k = 0 .. 4`; the font region
holds the font table and the ROM copy does not overwrite it. -/
theorem init_then_Fx29 (m : Chip8Machine) (rom : Nat → Nat) (rom_size x d : Nat)
    (hsize : rom_size ≤ MAX_ROM_SIZE) (hx : x ≤ 0xF) (hd : d ≤ 15) :
    ∃ m1, init_machine m rom rom_size = some m1 ∧
      (∀ i, i < 80 → m1.Memory.map (0x50 + i) = character_set.getD i 0) ∧
      ∀ m2 : Chip8Machine, m2.Memory = m1.Memory → m2.opcode = 0xF029 + 0x100 * x →
        m2.v x = d →
        ∃ m3, execute_instruction m2 = some (m3, Errorable.STATUS_OK) ∧
          m3.Registers.I = 0x50 + 5 * d ∧
          ∀ k, k < 5 → m3.Memory.map (m3.Registers.I + k) = character_set.getD (5 * d + k) 0 := by
  obtain ⟨m1, hinit, -, hfont⟩ := init_machine_font m rom rom_size hsize
  refine ⟨m1, hinit, hfont, ?_⟩
  intro m2 hmem hop hv
  have hfam : m2.opcode >>> 12 = 0xF := by rw [family_eq]; omega
  have hlow : m2.opcode &&& 0x00FF = 0x29 := by rw [low_byte_eq]; omega
  have hX : OPCODE_X m2 = x := by rw [OPCODE_X_eq]; omega
  have hI : (CHARACTER_ADDRESS_OFFSET + d * CHARACTER_BYTES_LENGTH) % 65536 = 0x50 + 5 * d := by
    unfold CHARACTER_ADDRESS_OFFSET CHARACTER_BYTES_LENGTH; omega
  have hexec : execute_instruction m2 = some (OP_Fx29 m2, Errorable.STATUS_OK) := by
    simp [execute_instruction, hfam, hlow]
  refine ⟨_, hexec, ?_, ?_⟩
  · simp only [OP_Fx29, hX, hv, hI]
  · intro k hk
    simp only [OP_Fx29, hX, hv, hI, hmem]
    rw [Nat.add_assoc, hfont (5 * d + k) (by omega)]

/-- Instance of `init_then_Fx29` for the zero machine, the 6-byte program of
the end-to-end scenario and digit `0xA` in `V0`: `I = 0x82`, and the five
bytes there are the glyph `F0 90 F0 90 90`. -/
theorem init_then_Fx29_witness :
    ∃ m1, init_machine zero_machine (buffer (add_rom 10 5)) 6 = some m1 ∧
      ∃ m3, execute_instruction
          { m1 with
            opcode := 0xF029
            Registers := { m1.Registers with V := buffer [0xA] } }
          = some (m3, Errorable.STATUS_OK) ∧
        m3.Registers.I = 0x82 ∧
        m3.Memory.map (m3.Registers.I + 0) = 0xF0 ∧ m3.Memory.map (m3.Registers.I + 1) = 0x90 ∧
        m3.Memory.map (m3.Registers.I + 2) = 0xF0 ∧ m3.Memory.map (m3.Registers.I + 3) = 0x90 ∧
        m3.Memory.map (m3.Registers.I + 4) = 0x90 :=
  have ⟨m1, h1, _, h3⟩ :=
    init_then_Fx29 zero_machine (buffer (add_rom 10 5)) 6 0 0xA (by decide) (by decide)
      (by decide)
  have ⟨m3, h4, h5, h6⟩ := h3
    { m1 with opcode := 0xF029, Registers := { m1.Registers with V := buffer [0xA] } }
    rfl rfl rfl
  ⟨m1, h1, m3, h4, h5, h6 0 (by decide), h6 1 (by decide), h6 2 (by decide),
    h6 3 (by decide), h6 4 (by decide)⟩

/-- The dump loop over registers `x0 .. x0 + k - 1` when the addresses stay
inside the memory map: `memory[I + j]` receives `V[j]` for the registers of
the range, nothing else changes. -/
theorem Fx55_loop_spec : ∀ (k x0 : Nat) (m : Chip8Machine),
    m.Registers.I + x0 + k ≤ 4096 →
    ∃ m', Fx55_loop k x0 m = some m' ∧
      (m'.Registers = m.Registers ∧ m'.display = m.display ∧ m'.keypad = m.keypad ∧
        m'.stack = m.stack ∧ m'.opcode = m.opcode) ∧
      (∀ j, x0 ≤ j → j < x0 + k → m'.Memory.map (m.Registers.I + j) = m.v j) ∧
      (∀ a, (∀ j, x0 ≤ j → j < x0 + k → a ≠ m.Registers.I + j) →
        m'.Memory.map a = m.Memory.map a) := by
  intro k
  induction k with
  | zero =>
    intro x0 m _
    refine ⟨m, rfl, ⟨rfl, rfl, rfl, rfl, rfl⟩, ?_, ?_⟩
    · intro j h1 h2; omega
    · intro a _; rfl
  | succ k ih =>
    intro x0 m hI
    have hs := store_eq m (m.Registers.I + x0) (m.v x0) (by omega)
    obtain ⟨m', hrun, hfr', hA, hB⟩ := ih (x0 + 1)
      { m with Memory := ⟨upd m.Memory.map (m.Registers.I + x0) (m.v x0)⟩ }
      (by show m.Registers.I + (x0 + 1) + k ≤ 4096; omega)
    have hrun' : Fx55_loop (k + 1) x0 m = some m' := by
      show (m.store (m.Registers.I + x0) (m.v x0)).bind _ = some m'
      rw [hs]
      exact hrun
    refine ⟨m', hrun', hfr', ?_, ?_⟩
    · intro j hj1 hj2
      by_cases hjx : j = x0
      · subst hjx
        have := hB (m.Registers.I + j) (fun j' h1 _ => by
          show m.Registers.I + j ≠ m.Registers.I + j'
          omega)
        rw [this]
        simp [upd]
      · exact hA j (by omega) (by omega)
    · intro a ha
      have := hB a (fun j h1 h2 => ha j (by omega) (by omega))
      rw [this]
      have hne : a ≠ m.Registers.I + x0 := ha x0 (le_refl x0) (by omega)
      simp [upd, hne]

theorem setv_frame (m : Chip8Machine) (i v : Nat) :
    (m.setv i v).Memory = m.Memory ∧ (m.setv i v).Registers.I = m.Registers.I ∧
    (m.setv i v).Registers.PC = m.Registers.PC ∧ (m.setv i v).Registers.SP = m.Registers.SP ∧
    (m.setv i v).Registers.ST = m.Registers.ST ∧ (m.setv i v).display = m.display ∧
    (m.setv i v).keypad = m.keypad ∧ (m.setv i v).stack = m.stack := by
  unfold Chip8Machine.setv setV
  split_ifs <;> exact ⟨rfl, rfl, rfl, rfl, rfl, rfl, rfl, rfl⟩

/-- The load loop over registers `x0 .. x0 + k - 1` when the addresses stay
inside the memory map: `V[j]` receives `memory[I + j]` for the registers of
the range, the other registers, `I` and memory are unchanged. -/
theorem Fx65_loop_spec : ∀ (k x0 : Nat) (m : Chip8Machine),
    m.Registers.I + x0 + k ≤ 4096 → x0 + k ≤ 16 →
    ∃ m', Fx65_loop k x0 m = some m' ∧ m'.Memory = m.Memory ∧
      m'.Registers.I = m.Registers.I ∧
      (∀ j, x0 ≤ j → j < x0 + k → m'.v j = m.Memory.map (m.Registers.I + j)) ∧
      (∀ j, j ≤ 0xF → ¬ (x0 ≤ j ∧ j < x0 + k) → m'.v j = m.v j) := by
  intro k
  induction k with
  | zero =>
    intro x0 m _ _
    refine ⟨m, rfl, rfl, rfl, ?_, ?_⟩
    · intro j h1 h2; omega
    · intro j _ _; rfl
  | succ k ih =>
    intro x0 m hI hx
    obtain ⟨hM, hI1, -⟩ := setv_frame m x0 (m.Memory.map (m.Registers.I + x0))
    obtain ⟨m', hrun, hmem, hI', hA, hB⟩ := ih (x0 + 1)
      (m.setv x0 (m.Memory.map (m.Registers.I + x0))) (by rw [hI1]; omega) (by omega)
    have hrun' : Fx65_loop (k + 1) x0 m = some m' := by
      show (if m.Registers.I + x0 < MEMORY_MAP_SIZE then _ else none) = some m'
      rw [if_pos (by unfold MEMORY_MAP_SIZE; omega)]
      exact hrun
    refine ⟨m', hrun', hmem.trans hM, hI'.trans hI1, ?_, ?_⟩
    · intro j hj1 hj2
      by_cases hjx : j = x0
      · subst hjx
        rw [hB j (by omega) (by omega), v_setv_same _ j _ (by omega)]
      · rw [hA j (by omega) (by omega), hM, hI1]
    · intro j hj hnot
      rw [hB j hj (by omega), v_setv_other _ x0 j _ (by omega) hj (by omega)]

/-- Claim C14: with `I + X ≤ 4095`, `Fx55` stores `V[k]` at `memory[I + k]`
for every `k` in `0 .. X`, changes no other memory byte, no register and leaves
`I` as it was; `Fx65` with the same `X` right afterwards leaves every register
`V[0] .. V[X]` equal to its value before the dump.  The load is the inverse of
the dump: executed on the dumped memory with the same `I`, whatever the
registers hold at that moment, `Fx65` sets `V[0] .. V[X]` to the bytes
`memory[I] .. memory[I + X]`, which are their values from before the dump, and
leaves the registers above `X`, `I` and memory as they are. -/
theorem dump_then_load (m : Chip8Machine) (X : Nat)
    (hX : X ≤ 15) (hop : m.opcode = 0xF055 + 0x100 * X)
    (hI : m.Registers.I + X ≤ 4095) :
    ∃ m1, execute_instruction m = some (m1, Errorable.STATUS_OK) ∧
      (∀ k, k ≤ X → m1.Memory.map (m.Registers.I + k) = m.v k) ∧
      (∀ a, (a < m.Registers.I ∨ m.Registers.I + X < a) →
        m1.Memory.map a = m.Memory.map a) ∧
      m1.Registers.I = m.Registers.I ∧
      m1.Registers = m.Registers ∧
      (∃ m2, execute_instruction { m1 with opcode := 0xF065 + 0x100 * X }
          = some (m2, Errorable.STATUS_OK) ∧
        (∀ k, k ≤ X → m2.v k = m.v k) ∧ m2.Registers.I = m.Registers.I) ∧
      ∀ c : Chip8Machine, c.opcode = 0xF065 + 0x100 * X → c.Memory = m1.Memory →
        c.Registers.I = m.Registers.I →
        ∃ m2, execute_instruction c = some (m2, Errorable.STATUS_OK) ∧
          (∀ k, k ≤ X → m2.v k = m.v k) ∧
          (∀ k, X < k → k ≤ 0xF → m2.v k = c.v k) ∧
          m2.Registers.I = m.Registers.I ∧ m2.Memory = c.Memory ∧
          ∀ k, k ≤ X → m2.v k = c.Memory.map (c.Registers.I + k) := by
  have hfam : m.opcode >>> 12 = 0xF := by rw [family_eq]; omega
  have hlow : m.opcode &&& 0x00FF = 0x55 := by rw [low_byte_eq]; omega
  have hXm : OPCODE_X m = X := by rw [OPCODE_X_eq]; omega
  obtain ⟨m1, hrun1, hfr1, hA1, hB1⟩ := Fx55_loop_spec (X + 1) 0 m (by omega)
  have hexec1 : execute_instruction m = some (m1, Errorable.STATUS_OK) := by
    have : execute_instruction m = (OP_Fx55 m).map (fun s => (s, Errorable.STATUS_OK)) := by
      simp [execute_instruction, hfam, hlow]
    rw [this, OP_Fx55, hXm, hrun1]
    rfl
  have hreg1 : m1.Registers = m.Registers := hfr1.1
  have hload : ∀ c : Chip8Machine, c.opcode = 0xF065 + 0x100 * X → c.Memory = m1.Memory →
      c.Registers.I = m.Registers.I →
      ∃ m2, execute_instruction c = some (m2, Errorable.STATUS_OK) ∧
        (∀ k, k ≤ X → m2.v k = m.v k) ∧
        (∀ k, X < k → k ≤ 0xF → m2.v k = c.v k) ∧
        m2.Registers.I = m.Registers.I ∧ m2.Memory = c.Memory ∧
        ∀ k, k ≤ X → m2.v k = c.Memory.map (c.Registers.I + k) := by
    intro c hopc hmemc hIc
    have hop2 : c.opcode >>> 12 = 0xF := by rw [family_eq]; omega
    have hlow2 : c.opcode &&& 0x00FF = 0x65 := by rw [low_byte_eq]; omega
    have hX2 : OPCODE_X c = X := by rw [OPCODE_X_eq]; omega
    obtain ⟨m2, hrun2, hmem2, hI2, hA2, hB2⟩ := Fx65_loop_spec (X + 1) 0 c
      (by rw [hIc]; omega) (by omega)
    have hexec2 : execute_instruction c = some (m2, Errorable.STATUS_OK) := by
      have : execute_instruction c
          = (OP_Fx65 c).map (fun s => (s, Errorable.STATUS_OK)) := by
        simp [execute_instruction, hop2, hlow2]
      rw [this, OP_Fx65, hX2, hrun2]
      rfl
    refine ⟨m2, hexec2, ?_, ?_, hI2.trans hIc, hmem2,
      fun k hk => hA2 k (Nat.zero_le k) (by omega)⟩
    · intro k hk
      rw [hA2 k (Nat.zero_le k) (by omega), hmemc, hIc]
      exact hA1 k (Nat.zero_le k) (by omega)
    · intro k hk hk15
      exact hB2 k hk15 (by omega)
  refine ⟨m1, hexec1, fun k hk => hA1 k (Nat.zero_le k) (by omega),
    fun a ha => hB1 a (fun j _ hj => by omega), by rw [hreg1], hreg1, ?_, hload⟩
  obtain ⟨m2, hexec2, hv2, -, hI2, -⟩ :=
    hload { m1 with opcode := 0xF065 + 0x100 * X } rfl rfl
      (by show m1.Registers.I = m.Registers.I; rw [hreg1])
  exact ⟨m2, hexec2, hv2, hI2⟩

/-- Instance of `dump_then_load`: `F255` with `V0, V1, V2 = 11, 22, 33` and
`I = 0x400` stores `11, 22, 33` at `0x400 .. 0x402`; `F265` on the result, with
the cells of `V` overwritten by `0` in between, loads `11, 22, 33` back into
`V0, V1, V2`. -/
theorem dump_then_load_witness :
    ∃ m1, execute_instruction dump_machine = some (m1, Errorable.STATUS_OK) ∧
      m1.Memory.map 0x400 = 11 ∧ m1.Memory.map 0x401 = 22 ∧ m1.Memory.map 0x402 = 33 ∧
      m1.Registers = dump_machine.Registers ∧
      ∃ m2, execute_instruction
          { m1 with
            opcode := 0xF265
            Registers := { m1.Registers with V := fun _ => 0 } }
          = some (m2, Errorable.STATUS_OK) ∧
        m2.v 0 = 11 ∧ m2.v 1 = 22 ∧ m2.v 2 = 33 ∧ m2.v 3 = 0 :=
  have ⟨m1, h1, hA, _, hI, hR, _, hc⟩ :=
    dump_then_load dump_machine 2 (by decide) (by decide) (by decide)
  have ⟨m2, h2, hv, hw, _⟩ := hc
    { m1 with opcode := 0xF265, Registers := { m1.Registers with V := fun _ => 0 } }
    rfl rfl hI
  ⟨m1, h1, hA 0 (by decide), hA 1 (by decide), hA 2 (by decide), hR, m2, h2,
    hv 0 (by decide), hv 1 (by decide), hv 2 (by decide), hw 3 (by decide) (by decide)⟩

/-! ## Waiting for a key -/

/-- The key scan of `Fx0A` over keys `x0 .. x0 + k - 1`: the first pressed key
of the range is stored in `Vx`; when no key of the range is pressed the
program counter is moved back by two. -/
theorem Fx0A_scan_spec (m : Chip8Machine) : ∀ (k x0 : Nat),
    ((∀ j, x0 ≤ j → j < x0 + k → m.keypad j = 0) →
      Fx0A_scan m k x0 = m.setPC ((m.Registers.PC + 65536 - 2) % 65536)) ∧
    (∀ key, x0 ≤ key → key < x0 + k → m.keypad key ≠ 0 →
      (∀ j, x0 ≤ j → j < key → m.keypad j = 0) →
      Fx0A_scan m k x0 = m.setv (OPCODE_X m) key) := by
  intro k
  induction k with
  | zero =>
    intro x0
    refine ⟨fun _ => rfl, ?_⟩
    intro key h1 h2
    omega
  | succ k ih =>
    intro x0
    obtain ⟨ih0, ih1⟩ := ih (x0 + 1)
    refine ⟨?_, ?_⟩
    · intro hz
      show (if m.keypad x0 ≠ 0 then _ else Fx0A_scan m k (x0 + 1)) = _
      rw [if_neg (not_not.mpr (hz x0 (le_refl x0) (by omega)))]
      exact ih0 (fun j h1 h2 => hz j (by omega) (by omega))
    · intro key h1 h2 hkey hfirst
      show (if m.keypad x0 ≠ 0 then _ else Fx0A_scan m k (x0 + 1)) = _
      by_cases hx0 : key = x0
      · subst hx0
        rw [if_pos hkey]
      · rw [if_neg (not_not.mpr (hfirst x0 (le_refl x0) (by omega)))]
        exact ih1 key (by omega) (by omega) hkey (fun j hj1 hj2 => hfirst j (by omega) hj2)

/-- Dispatch of `Fx0A`. -/
theorem execute_Fx0A (m : Chip8Machine) (x : Nat) (hx : x ≤ 0xF)
    (hop : m.opcode = 0xF00A + 0x100 * x) :
    execute_instruction m = some (Fx0A_scan m 16 0, Errorable.STATUS_OK) := by
  have hfam : m.opcode >>> 12 = 0xF := by rw [family_eq]; omega
  have hlow : m.opcode &&& 0x00FF = 0x0A := by rw [low_byte_eq]; omega
  simp [execute_instruction, hfam, hlow, OP_Fx0A]

/-- Claim C13 as the code behaves: one cycle that fetches `Fx0A` at `PC = p`
with `p + 1 ≤ 4095`.  With no key pressed the cycle leaves `PC = p` and the
cells `V[0] .. V[14]` unchanged, while the byte addressed by `V[0xF]`, the
delay timer, is counted down by the timer step.  With `key` the smallest
pressed key the cycle leaves `PC = p + 2` and, for `x ≠ 0xF`, `Vx = key`; for
`x = 0xF` the stored key is counted down by the timer step of the same
cycle. -/
theorem cycle_Fx0A (rand : Nat) (m : Chip8Machine) (x p : Nat)
    (hx : x ≤ 0xF) (hp : m.Registers.PC = p) (hp1 : p + 1 ≤ 4095)
    (hhi : m.Memory.map p = 0xF0 + x) (hlo : m.Memory.map (p + 1) = 0x0A) :
    ∃ m', do_cycle rand m = some m' ∧
      ((∀ j, j < 16 → m.keypad j = 0) →
        m'.Registers.PC = p ∧ m'.Registers.V = m.Registers.V ∧
        m'.v 0xF = m.v 0xF - 1) ∧
      (∀ key, key < 16 → m.keypad key ≠ 0 → (∀ j, j < key → m.keypad j = 0) →
        m'.Registers.PC = p + 2 ∧ (x < 0xF → m'.v x = key) ∧
        (x = 0xF → m'.v x = key - 1)) := by
  subst hp
  have hmod : (m.Registers.PC + 2) % 65536 = m.Registers.PC + 2 := by omega
  have hback : (m.Registers.PC + 2 + 65536 - 2) % 65536 = m.Registers.PC := by omega
  have c := do_cycle_eq rand m _ (0xF0 + x) 0x0A (by omega) hhi hlo (by omega) (by norm_num)
    (execute_Fx0A _ x hx
      (by show (0xF0 + x) * 256 + 0x0A = 0xF00A + 0x100 * x; omega))
  obtain ⟨M, hM, hk, hV, hDT, hPC, hXm⟩ : ∃ M : Chip8Machine,
      M = Chip8Machine.setPC { m with opcode := (0xF0 + x) * 256 + 0x0A }
        ((m.Registers.PC + 2) % 65536) ∧
      M.keypad = m.keypad ∧ M.Registers.V = m.Registers.V ∧
      M.Registers.DT = m.Registers.DT ∧ M.Registers.PC = m.Registers.PC + 2 ∧
      OPCODE_X M = x := by
    refine ⟨_, rfl, rfl, rfl, rfl, by simp [Chip8Machine.setPC, hmod], ?_⟩
    rw [OPCODE_X_eq]
    show ((0xF0 + x) * 256 + 0x0A) / 256 % 16 = x
    omega
  rw [← hM] at c
  obtain ⟨s0, s1⟩ := Fx0A_scan_spec M 16 0
  obtain ⟨S, hS⟩ : ∃ S, S = Fx0A_scan M 16 0 := ⟨_, rfl⟩
  rw [← hS] at c s0 s1
  have rPC : (tick_timers { S with random_byte := rand % 256 }).Registers.PC = S.Registers.PC :=
    (tick_timers_rest _).2.2.1
  have rV : (tick_timers { S with random_byte := rand % 256 }).Registers.V = S.Registers.V :=
    (tick_timers_rest _).2.1
  have rDT : (tick_timers { S with random_byte := rand % 256 }).Registers.DT
      = S.Registers.DT - 1 := tick_timers_DT _
  refine ⟨_, c, ?_, ?_⟩
  · intro hz
    have hSe := s0 (fun j _ hj => by rw [hk]; exact hz j (by omega))
    rw [hPC, hback] at hSe
    refine ⟨?_, ?_, ?_⟩
    · rw [rPC, hSe]; rfl
    · rw [rV, hSe]; exact hV
    · rw [v_flag, v_flag, rDT, hSe]
      show M.Registers.DT - 1 = m.Registers.DT - 1
      rw [hDT]
  · intro key hkey hpressed hfirst
    have hSe := s1 key (Nat.zero_le key) (by omega) (by rw [hk]; exact hpressed)
      (fun j _ hj => by rw [hk]; exact hfirst j hj)
    rw [hXm] at hSe
    refine ⟨?_, ?_, ?_⟩
    · rw [rPC, hSe, (setv_frame M x key).2.2.1, hPC]
    · intro hx15
      rw [v_of_lt _ x hx15, rV, hSe]
      simp [Chip8Machine.setv, setV, V_REGISTER_AMOUNT, hx15, upd]
    · intro hx15
      subst hx15
      rw [v_flag, rDT, hSe]
      simp [Chip8Machine.setv, setV, V_REGISTER_AMOUNT]

/-- Instance of `cycle_Fx0A` with no key pressed and the delay timer at `5`:
after the cycle `PC` is `0x200` again, but `V[0xF]` has changed from `5` to
`4`. -/
theorem cycle_Fx0A_flag_ticks :
    wait_key_machine.v 0xF = 5 ∧
    ∃ m', do_cycle 0 wait_key_machine = some m' ∧ m'.Registers.PC = 0x200 ∧
      m'.Registers.V = wait_key_machine.Registers.V ∧ m'.v 0xF = 4 :=
  have ⟨m', h1, h2, _⟩ := cycle_Fx0A 0 wait_key_machine 0 0x200 (by decide) rfl (by decide)
    (by decide) (by decide)
  ⟨by decide, m', h1, h2 (fun _ _ => rfl)⟩

/-! ## Timers -/

/-- The timers after a cycle are the timers as the fetched instruction left
them, each counted down by one unless it is zero; a timer at zero stays at
zero. -/
theorem do_cycle_timers (rand : Nat) (m m' : Chip8Machine) (h : do_cycle rand m = some m') :
    ∃ m2, execute_instruction
        (Chip8Machine.setPC
          { m with opcode := ((m.Memory.map m.Registers.PC <<< 8)
            ||| m.Memory.map (m.Registers.PC + 1)) % 65536 }
          ((m.Registers.PC + 2) % 65536)) = some (m2, Errorable.STATUS_OK) ∧
      m'.Registers.DT = m2.Registers.DT - 1 ∧ m'.Registers.ST = m2.Registers.ST - 1 ∧
      (m2.Registers.DT = 0 → m'.Registers.DT = 0) ∧
      (m2.Registers.ST = 0 → m'.Registers.ST = 0) := by
  unfold do_cycle at h
  split_ifs at h with hpc
  simp only [] at h
  cases hexec : execute_instruction
      (Chip8Machine.setPC
        { m with opcode := ((m.Memory.map m.Registers.PC <<< 8)
          ||| m.Memory.map (m.Registers.PC + 1)) % 65536 }
        ((m.Registers.PC + 2) % 65536)) with
  | none =>
    rw [hexec] at h
    cases h
  | some r =>
    rw [hexec] at h
    have hst := execute_instruction_status _ r hexec
    obtain ⟨m2, e⟩ := r
    simp only at hst
    subst hst
    simp only [Option.some_bind, ne_eq, not_true_eq_false, if_false] at h
    cases h
    refine ⟨m2, rfl, tick_timers_DT _, tick_timers_ST _, ?_, ?_⟩
    · intro h0
      rw [tick_timers_DT]
      show m2.Registers.DT - 1 = 0
      omega
    · intro h0
      rw [tick_timers_ST]
      show m2.Registers.ST - 1 = 0
      omega

/-- Claim C16 at a cycle that fetches `8014` with `V0 = 1`, `V1 = 2` and the
delay timer at `10`: the instruction is neither `Fx15` nor `Fx18`, yet the
delay timer ends at `0` instead of `9`, because `8xy4` stores its carry `0` in
`V[0xF]`, the delay timer byte; the sound timer stays at `0`. -/
theorem do_cycle_flag_store_resets_timer :
    add_timer_machine.Registers.DT = 10 ∧ add_timer_machine.Registers.ST = 0 ∧
    add_timer_machine.Memory.map add_timer_machine.Registers.PC = 0x80 ∧
    add_timer_machine.Memory.map (add_timer_machine.Registers.PC + 1) = 0x14 ∧
    (do_cycle 0 add_timer_machine).map
        (fun s => (s.Registers.DT, s.Registers.ST, s.v 0, s.Registers.PC))
      = some (0, 0, 3, 0x202) := by
  decide

/-! ## Status of the dispatcher -/

@[simp] theorem setv_ST (m : Chip8Machine) (i v : Nat) :
    (m.setv i v).Registers.ST = m.Registers.ST := (setv_frame m i v).2.2.2.2.1

@[simp] theorem setPC_ST (m : Chip8Machine) (pc : Nat) :
    (m.setPC pc).Registers.ST = m.Registers.ST := rfl

@[simp] theorem setPC_display (m : Chip8Machine) (pc : Nat) :
    (m.setPC pc).display = m.display := rfl

/-- The key scan of `Fx0A` leaves the sound timer and the display alone. -/
theorem Fx0A_scan_keeps (m : Chip8Machine) : ∀ (k x0 : Nat),
    (Fx0A_scan m k x0).Registers.ST = m.Registers.ST ∧
    (Fx0A_scan m k x0).display = m.display := by
  intro k
  induction k with
  | zero =>
    intro x0
    simp [Fx0A_scan]
  | succ k ih =>
    intro x0
    show (if m.keypad x0 ≠ 0 then _ else Fx0A_scan m k (x0 + 1)).Registers.ST = _ ∧
      (if m.keypad x0 ≠ 0 then _ else Fx0A_scan m k (x0 + 1)).display = _
    split_ifs
    · exact ⟨setv_ST _ _ _, setv_display _ _ _⟩
    · exact ih (x0 + 1)

/-- A store leaves the registers alone, and the display too when its address
is inside the memory map. -/
theorem store_keeps (m m1 : Chip8Machine) (a v : Nat) (h : m.store a v = some m1) :
    m1.Registers = m.Registers ∧ (a < 4096 → m1.display = m.display) := by
  unfold Chip8Machine.store at h
  split_ifs at h with h1 h2 h3
  · cases h
    exact ⟨rfl, fun _ => rfl⟩
  · cases h
    exact ⟨rfl, fun ha => absurd ha h1⟩
  · cases h
    exact ⟨rfl, fun _ => rfl⟩

/-- Whenever `Fx33` completes, it leaves the registers alone, and the display
too when the three addresses are inside the memory map. -/
theorem OP_Fx33_keeps (m m' : Chip8Machine) (h : OP_Fx33 m = some m') :
    m'.Registers = m.Registers ∧ (m.Registers.I + 2 ≤ 4095 → m'.display = m.display) := by
  unfold OP_Fx33 at h
  rw [Option.bind_eq_some] at h
  obtain ⟨m1, h1, h⟩ := h
  rw [Option.bind_eq_some] at h
  obtain ⟨m2, h2, h3⟩ := h
  obtain ⟨r1, d1⟩ := store_keeps _ _ _ _ h1
  obtain ⟨r2, d2⟩ := store_keeps _ _ _ _ h2
  obtain ⟨r3, d3⟩ := store_keeps _ _ _ _ h3
  refine ⟨r3.trans (r2.trans r1), fun hI => ?_⟩
  have e1 : m1.Registers.I = m.Registers.I := congrArg Chip8Registers.I r1
  have e2 : m2.Registers.I = m.Registers.I := congrArg Chip8Registers.I (r2.trans r1)
  exact (d3 (by omega)).trans ((d2 (by omega)).trans (d1 (by omega)))

/-- Whenever the dump loop completes, it leaves the registers alone, and the
display too when its addresses are inside the memory map. -/
theorem Fx55_loop_keeps : ∀ (k x0 : Nat) (m m' : Chip8Machine),
    Fx55_loop k x0 m = some m' →
    m'.Registers = m.Registers ∧
    (m.Registers.I + x0 + k ≤ 4096 → m'.display = m.display) := by
  intro k
  induction k with
  | zero =>
    intro x0 m m' h
    cases h
    exact ⟨rfl, fun _ => rfl⟩
  | succ k ih =>
    intro x0 m m' h
    change (m.store (m.Registers.I + x0) (m.v x0)).bind (Fx55_loop k (x0 + 1)) = some m' at h
    rw [Option.bind_eq_some] at h
    obtain ⟨m1, h1, h2⟩ := h
    obtain ⟨r1, d1⟩ := store_keeps _ _ _ _ h1
    obtain ⟨r2, d2⟩ := ih _ _ _ h2
    refine ⟨r2.trans r1, fun hI => ?_⟩
    have e1 : m1.Registers.I = m.Registers.I := congrArg Chip8Registers.I r1
    exact (d2 (by omega)).trans (d1 (by omega))

/-- Whenever the load loop completes, it leaves the sound timer and the
display alone. -/
theorem Fx65_loop_keeps : ∀ (k x0 : Nat) (m m' : Chip8Machine),
    Fx65_loop k x0 m = some m' →
    m'.Registers.ST = m.Registers.ST ∧ m'.display = m.display := by
  intro k
  induction k with
  | zero =>
    intro x0 m m' h
    cases h
    exact ⟨rfl, rfl⟩
  | succ k ih =>
    intro x0 m m' h
    change (if m.Registers.I + x0 < MEMORY_MAP_SIZE then
      Fx65_loop k (x0 + 1) (m.setv x0 (m.Memory.map (m.Registers.I + x0))) else none)
      = some m' at h
    split_ifs at h
    obtain ⟨r2, d2⟩ := ih _ _ _ h
    exact ⟨r2.trans (setv_ST _ _ _), d2.trans (setv_display _ _ _)⟩

/-- Whenever a column step completes, nothing but the display and the flag
byte has changed. -/
theorem Dxyn_pixel_frame (sb x y row col : Nat) (m m' : Chip8Machine)
    (h : Dxyn_pixel sb x y row col m = some m') : frame m' = frame m := by
  unfold Dxyn_pixel at h
  simp only [] at h
  split_ifs at h
  · cases h
    simp [frame, Chip8Machine.setv, setV, V_REGISTER_AMOUNT]
  · cases h
    rfl

/-- Whenever the column loop completes, nothing but the display and the flag
byte has changed. -/
theorem Dxyn_columns_frame (sb x y row : Nat) : ∀ (k c0 : Nat) (m m' : Chip8Machine),
    Dxyn_columns sb x y row k c0 m = some m' → frame m' = frame m := by
  intro k
  induction k with
  | zero =>
    intro c0 m m' h
    cases h
    rfl
  | succ k ih =>
    intro c0 m m' h
    change (Dxyn_pixel sb x y row c0 m).bind (Dxyn_columns sb x y row k (c0 + 1)) = some m' at h
    rw [Option.bind_eq_some] at h
    obtain ⟨m1, h1, h2⟩ := h
    exact (ih _ _ _ h2).trans (Dxyn_pixel_frame _ _ _ _ _ _ _ h1)

/-- Whenever the row loop completes, nothing but the display and the flag byte
has changed. -/
theorem Dxyn_rows_frame (x y : Nat) : ∀ (k r0 : Nat) (m m' : Chip8Machine),
    Dxyn_rows x y k r0 m = some m' → frame m' = frame m := by
  intro k
  induction k with
  | zero =>
    intro r0 m m' h
    cases h
    rfl
  | succ k ih =>
    intro r0 m m' h
    change (Dxyn_row x y r0 m).bind (Dxyn_rows x y k (r0 + 1)) = some m' at h
    rw [Option.bind_eq_some] at h
    obtain ⟨m1, h1, h2⟩ := h
    unfold Dxyn_row at h1
    split_ifs at h1
    exact (ih _ _ _ h2).trans (Dxyn_columns_frame _ _ _ _ _ _ _ _ h1)

/-- Whenever `Dxyn` completes, nothing but the display and the flag byte has
changed. -/
theorem OP_Dxyn_keeps (m m' : Chip8Machine) (h : OP_Dxyn m = some m') : frame m' = frame m := by
  unfold OP_Dxyn at h
  exact (Dxyn_rows_frame _ _ _ _ _ _ h).trans (frame_setv_flag m 0)

/-- Whenever `00EE`, `2nnn`, `Ex9E` or `ExA1` completes, it leaves the sound
timer and the display alone. -/
theorem indexed_ops_keep (m m' : Chip8Machine)
    (h : OP_00EE m = some m' ∨ OP_2nnn m = some m' ∨ OP_Ex9E m = some m' ∨
      OP_ExA1 m = some m') :
    m'.Registers.ST = m.Registers.ST ∧ m'.display = m.display := by
  rcases h with h | h | h | h
  · unfold OP_00EE at h
    simp only [] at h
    split_ifs at h
    cases h
    exact ⟨rfl, rfl⟩
  · unfold OP_2nnn at h
    split_ifs at h
    cases h
    exact ⟨rfl, rfl⟩
  · unfold OP_Ex9E at h
    split_ifs at h <;> cases h <;> exact ⟨rfl, rfl⟩
  · unfold OP_ExA1 at h
    split_ifs at h <;> cases h <;> exact ⟨rfl, rfl⟩

/-- Whenever `execute_instruction` completes on an opcode other than `Fx18`,
the sound timer is what it was. -/
theorem execute_instruction_ST (m : Chip8Machine) (r : Chip8Machine × Errorable)
    (h : execute_instruction m = some r)
    (hne : ¬ (m.opcode >>> 12 = 0xF ∧ m.opcode &&& 0x00FF = 0x18)) :
    r.1.Registers.ST = m.Registers.ST := by
  unfold execute_instruction at h
  rw [Option.map_eq_some'] at h
  obtain ⟨m1, h1, rfl⟩ := h
  show m1.Registers.ST = m.Registers.ST
  split at h1 <;> (try split at h1) <;> (try split at h1)
  all_goals try (simp only [Option.some.injEq] at h1; subst h1)
  all_goals try (with_reducible rfl)
  all_goals try
    (simp only [OP_00E0, OP_1nnn, OP_6xkk, OP_7xkk, OP_8xy0, OP_8xy1, OP_8xy2, OP_8xy3,
      OP_8xy4, OP_8xy5, OP_8xy6, OP_8xy7, OP_8xyE, OP_Annn, OP_Bnnn, OP_Cxkk, OP_Fx07,
      OP_Fx15, OP_Fx1E, OP_Fx29, setv_ST, setPC_ST])
  all_goals try
    (simp only [OP_3xkk, OP_4xkk, OP_5xy0, OP_9xy0]
     split_ifs <;> simp only [setPC_ST])
  · exact (indexed_ops_keep m m1 (Or.inl h1)).1
  · exact (indexed_ops_keep m m1 (Or.inr (Or.inl h1))).1
  · exact (frame_fields (OP_Dxyn_keeps m m1 h1)).2.2.1
  · exact (indexed_ops_keep m m1 (Or.inr (Or.inr (Or.inl h1)))).1
  · exact (indexed_ops_keep m m1 (Or.inr (Or.inr (Or.inr h1)))).1
  · exact (Fx0A_scan_keeps m 16 0).1
  · exact absurd ⟨by assumption, by assumption⟩ hne
  · exact congrArg Chip8Registers.ST (OP_Fx33_keeps m m1 h1).1
  · exact congrArg Chip8Registers.ST (Fx55_loop_keeps _ _ _ _ h1).1
  · exact (Fx65_loop_keeps _ _ _ _ h1).1

/-- Whenever `execute_instruction` completes on an opcode other than `00E0`
and `Dxyn`, with the stores of `Fx33` and `Fx55` inside the memory map, the
display is what it was. -/
theorem execute_instruction_display (m : Chip8Machine) (r : Chip8Machine × Errorable)
    (h : execute_instruction m = some r)
    (hcls : m.opcode ≠ 0x00E0) (hdrw : m.opcode >>> 12 ≠ 0xD)
    (hbcd : m.opcode >>> 12 = 0xF → m.opcode &&& 0x00FF = 0x33 → m.Registers.I + 2 ≤ 4095)
    (hdump : m.opcode >>> 12 = 0xF → m.opcode &&& 0x00FF = 0x55 →
      m.Registers.I + OPCODE_X m ≤ 4095) :
    r.1.display = m.display := by
  unfold execute_instruction at h
  rw [Option.map_eq_some'] at h
  obtain ⟨m1, h1, rfl⟩ := h
  show m1.display = m.display
  split at h1 <;> (try split at h1) <;> (try split at h1)
  all_goals try (simp only [Option.some.injEq] at h1; subst h1)
  all_goals try (with_reducible rfl)
  all_goals try
    (simp only [OP_1nnn, OP_6xkk, OP_7xkk, OP_8xy0, OP_8xy1, OP_8xy2, OP_8xy3,
      OP_8xy4, OP_8xy5, OP_8xy6, OP_8xy7, OP_8xyE, OP_Annn, OP_Bnnn, OP_Cxkk, OP_Fx07,
      OP_Fx15, OP_Fx18, OP_Fx1E, OP_Fx29, setv_display, setPC_display])
  all_goals try
    (simp only [OP_3xkk, OP_4xkk, OP_5xy0, OP_9xy0]
     split_ifs <;> simp only [setPC_display])
  · exact absurd (by assumption) hcls
  · exact (indexed_ops_keep m m1 (Or.inl h1)).2
  · exact (indexed_ops_keep m m1 (Or.inr (Or.inl h1))).2
  · exact absurd (by assumption) hdrw
  · exact (indexed_ops_keep m m1 (Or.inr (Or.inr (Or.inl h1)))).2
  · exact (indexed_ops_keep m m1 (Or.inr (Or.inr (Or.inr h1)))).2
  · exact (Fx0A_scan_keeps m 16 0).2
  · exact (OP_Fx33_keeps m m1 h1).2 (hbcd (by assumption) (by assumption))
  · exact (Fx55_loop_keeps _ _ _ _ h1).2
      (by have := hdump (by assumption) (by assumption); omega)
  · exact (Fx65_loop_keeps _ _ _ _ h1).2

/-- After a cycle whose fetched instruction is not `Fx18`, the sound timer is
its old value counted down by one, or zero when it was zero. -/
theorem do_cycle_ST (rand : Nat) (m m' : Chip8Machine) (h : do_cycle rand m = some m')
    (hne : ¬ ((((m.Memory.map m.Registers.PC <<< 8)
          ||| m.Memory.map (m.Registers.PC + 1)) % 65536) >>> 12 = 0xF ∧
        (((m.Memory.map m.Registers.PC <<< 8)
          ||| m.Memory.map (m.Registers.PC + 1)) % 65536) &&& 0x00FF = 0x18)) :
    m'.Registers.ST = m.Registers.ST - 1 := by
  obtain ⟨m2, hexec, -, hst, -⟩ := do_cycle_timers rand m m' h
  rw [hst]
  have := execute_instruction_ST _ _ hexec hne
  rw [this]
  rfl

/-! ## Framebuffer cells -/

/-- Pointwise description of `memset`: the first `n` bytes become `c`, every
other byte keeps its value. -/
theorem memset_apply (dst : Nat → Nat) (c n i : Nat) :
    memset dst c n i = if i < n then c else dst i := by
  induction n with
  | zero => simp [memset]
  | succ k ih =>
    simp only [memset, upd, ih]
    by_cases h : i = k
    · subst h; simp
    · simp only [h, if_false]
      by_cases h2 : i < k
      · have h3 : i < k + 1 := by omega
        simp [h2, h3]
      · have h3 : ¬ i < k + 1 := by omega
        simp [h2, h3]

/-- XOR with `0xFF` maps an unlit cell to a lit one and a lit cell to an unlit
one. -/
theorem toggle_cell (d : Nat) (h : d = 0x00 ∨ d = 0xFF) :
    (d ^^^ 0xFF) % 256 = 0x00 ∨ (d ^^^ 0xFF) % 256 = 0xFF := by
  rcases h with h | h
  · right; subst h; decide
  · left; subst h; decide

/-- Whenever a column step completes, cells that were `0x00` or `0xFF` still
are. -/
theorem Dxyn_pixel_cells (sb x y row col : Nat) (m m' : Chip8Machine)
    (h : Dxyn_pixel sb x y row col m = some m')
    (hinv : ∀ i, i < 2048 → m.display i = 0x00 ∨ m.display i = 0xFF) :
    ∀ i, i < 2048 → m'.display i = 0x00 ∨ m'.display i = 0xFF := by
  unfold Dxyn_pixel at h
  simp only [] at h
  split_ifs at h with hbit hidx
  · cases h
    intro i hi
    show upd _ _ _ i = 0x00 ∨ upd _ _ _ i = 0xFF
    unfold upd
    split_ifs with hii
    · exact toggle_cell _ (hinv _ hidx)
    · exact hinv i hi
  · cases h
    exact hinv

/-- Whenever the column loop completes, cells that were `0x00` or `0xFF` still
are. -/
theorem Dxyn_columns_cells (sb x y row : Nat) : ∀ (k c0 : Nat) (m m' : Chip8Machine),
    Dxyn_columns sb x y row k c0 m = some m' →
    (∀ i, i < 2048 → m.display i = 0x00 ∨ m.display i = 0xFF) →
    ∀ i, i < 2048 → m'.display i = 0x00 ∨ m'.display i = 0xFF := by
  intro k
  induction k with
  | zero =>
    intro c0 m m' h hinv
    cases h
    exact hinv
  | succ k ih =>
    intro c0 m m' h hinv
    change (Dxyn_pixel sb x y row c0 m).bind (Dxyn_columns sb x y row k (c0 + 1)) = some m' at h
    rw [Option.bind_eq_some] at h
    obtain ⟨m1, h1, h2⟩ := h
    exact ih _ _ _ h2 (Dxyn_pixel_cells _ _ _ _ _ _ _ h1 hinv)

/-- Whenever the row loop completes, cells that were `0x00` or `0xFF` still
are. -/
theorem Dxyn_rows_cells (x y : Nat) : ∀ (k r0 : Nat) (m m' : Chip8Machine),
    Dxyn_rows x y k r0 m = some m' →
    (∀ i, i < 2048 → m.display i = 0x00 ∨ m.display i = 0xFF) →
    ∀ i, i < 2048 → m'.display i = 0x00 ∨ m'.display i = 0xFF := by
  intro k
  induction k with
  | zero =>
    intro r0 m m' h hinv
    cases h
    exact hinv
  | succ k ih =>
    intro r0 m m' h hinv
    change (Dxyn_row x y r0 m).bind (Dxyn_rows x y k (r0 + 1)) = some m' at h
    rw [Option.bind_eq_some] at h
    obtain ⟨m1, h1, h2⟩ := h
    unfold Dxyn_row at h1
    split_ifs at h1
    exact ih _ _ _ h2 (Dxyn_columns_cells _ _ _ _ _ _ _ _ h1 hinv)

/-- Whenever `Dxyn` completes, cells that were `0x00` or `0xFF` still are. -/
theorem OP_Dxyn_cells (m m' : Chip8Machine) (h : OP_Dxyn m = some m')
    (hinv : ∀ i, i < 2048 → m.display i = 0x00 ∨ m.display i = 0xFF) :
    ∀ i, i < 2048 → m'.display i = 0x00 ∨ m'.display i = 0xFF := by
  unfold OP_Dxyn at h
  exact Dxyn_rows_cells _ _ _ _ _ _ h hinv

/-- Dispatch of `00E0`: every display cell becomes `0x00`. -/
theorem execute_00E0 (m : Chip8Machine) (hop : m.opcode = 0x00E0) :
    execute_instruction m = some (OP_00E0 m, Errorable.STATUS_OK) ∧
    ∀ i, i < 2048 → (OP_00E0 m).display i = 0x00 := by
  have hfam : m.opcode >>> 12 = 0 := by rw [hop]; rfl
  refine ⟨by simp [execute_instruction, hfam, hop], ?_⟩
  intro i hi
  show memset m.display 0 (DISPLAY_WIDTH * DISPLAY_HEIGHT) i = 0
  rw [memset_apply, if_pos (by unfold DISPLAY_WIDTH DISPLAY_HEIGHT; omega)]

/-- Whenever `execute_instruction` completes, whatever the opcode, with the
stores of `Fx33` and `Fx55` inside the memory map, cells that were `0x00` or
`0xFF` still are. -/
theorem execute_instruction_cells (m : Chip8Machine) (r : Chip8Machine × Errorable)
    (h : execute_instruction m = some r)
    (hinv : ∀ i, i < 2048 → m.display i = 0x00 ∨ m.display i = 0xFF)
    (hbcd : m.opcode >>> 12 = 0xF → m.opcode &&& 0x00FF = 0x33 → m.Registers.I + 2 ≤ 4095)
    (hdump : m.opcode >>> 12 = 0xF → m.opcode &&& 0x00FF = 0x55 →
      m.Registers.I + OPCODE_X m ≤ 4095) :
    ∀ i, i < 2048 → r.1.display i = 0x00 ∨ r.1.display i = 0xFF := by
  by_cases hcls : m.opcode = 0x00E0
  · obtain ⟨hexec, hzero⟩ := execute_00E0 m hcls
    rw [hexec] at h
    cases h
    intro i hi
    exact Or.inl (hzero i hi)
  · by_cases hdrw : m.opcode >>> 12 = 0xD
    · have hexec : execute_instruction m
          = (OP_Dxyn m).map (fun s => (s, Errorable.STATUS_OK)) := by
        simp [execute_instruction, hdrw]
      rw [hexec, Option.map_eq_some'] at h
      obtain ⟨m1, h1, rfl⟩ := h
      exact OP_Dxyn_cells m m1 h1 hinv
    · rw [execute_instruction_display m r h hcls hdrw hbcd hdump]
      exact hinv

/-- Whenever a cycle completes in which the fetched instruction is not an
`Fx33` or `Fx55` that stores behind the memory map, cells that were `0x00` or
`0xFF` still are. -/
theorem do_cycle_cells (rand : Nat) (m m' : Chip8Machine) (h : do_cycle rand m = some m')
    (hinv : ∀ i, i < 2048 → m.display i = 0x00 ∨ m.display i = 0xFF)
    (hst : ∀ w, w = ((m.Memory.map m.Registers.PC <<< 8)
          ||| m.Memory.map (m.Registers.PC + 1)) % 65536 →
      w >>> 12 = 0xF →
      (w &&& 0x00FF = 0x33 → m.Registers.I + 2 ≤ 4095) ∧
      (w &&& 0x00FF = 0x55 → m.Registers.I + ((w &&& 0x0F00) >>> 8) ≤ 4095)) :
    ∀ i, i < 2048 → m'.display i = 0x00 ∨ m'.display i = 0xFF := by
  unfold do_cycle at h
  split_ifs at h with hpc
  simp only [] at h
  rw [Option.bind_eq_some] at h
  obtain ⟨r, hexec, h2⟩ := h
  have hok := execute_instruction_status _ r hexec
  rw [if_neg (by rw [hok]; simp)] at h2
  cases h2
  have hcells := execute_instruction_cells _ r hexec hinv
    (fun hf hl => (hst _ rfl hf).1 hl) (fun hf hl => (hst _ rfl hf).2 hl)
  intro i hi
  rw [(tick_timers_rest _).2.2.2.2.2.1]
  exact hcells i hi

/-- Whenever a run of cycles completes in which no fetched instruction is an
`Fx33` or `Fx55` that stores behind the memory map, cells that were `0x00` or
`0xFF` still are. -/
theorem run_cycles_cells : ∀ (inputs : List (Nat × (Nat → Nat))) (m m' : Chip8Machine),
    run_cycles inputs m = some m' →
    (∀ i, i < 2048 → m.display i = 0x00 ∨ m.display i = 0xFF) →
    (∀ (k : Nat) (s : Chip8Machine) (w : Nat), k < inputs.length →
      run_cycles (inputs.take k) m = some s →
      w = ((s.Memory.map s.Registers.PC <<< 8)
          ||| s.Memory.map (s.Registers.PC + 1)) % 65536 →
      w >>> 12 = 0xF →
      (w &&& 0x00FF = 0x33 → s.Registers.I + 2 ≤ 4095) ∧
      (w &&& 0x00FF = 0x55 → s.Registers.I + ((w &&& 0x0F00) >>> 8) ≤ 4095)) →
    ∀ i, i < 2048 → m'.display i = 0x00 ∨ m'.display i = 0xFF := by
  intro inputs
  induction inputs with
  | nil =>
    intro m m' h hinv _
    cases h
    exact hinv
  | cons input rest ih =>
    intro m m' h hinv hst
    obtain ⟨rand, keys⟩ := input
    change (do_cycle rand { m with keypad := keys }).bind (run_cycles rest) = some m' at h
    rw [Option.bind_eq_some] at h
    obtain ⟨m1, h1, h2⟩ := h
    have hinv1 := do_cycle_cells rand _ m1 h1 hinv
      (fun w hw hf => hst 0 m w (Nat.succ_pos _) rfl hw hf)
    refine ih m1 m' h2 hinv1 ?_
    intro k s w hk hs hw hf
    refine hst (k + 1) s w (Nat.succ_lt_succ hk) ?_ hw hf
    show (do_cycle rand { m with keypad := keys }).bind (run_cycles (rest.take k)) = some s
    rw [h1]
    exact hs

/-- Every cell of the display of the zero machine stays `0x00` through
`init_machine`. -/
theorem init_machine_display (rom : Nat → Nat) (rom_size : Nat) (m : Chip8Machine)
    (h : init_machine zero_machine rom rom_size = some m) : ∀ i, m.display i = 0x00 := by
  unfold init_machine at h
  simp only [] at h
  split_ifs at h with hst
  cases h
  intro i
  unfold load_rom
  split_ifs <;> rfl

/-- When every array access of the instruction is inside its array,
`execute_instruction` has a result, and the status is `STATUS_OK`. -/
theorem execute_instruction_defined (m : Chip8Machine)
    (hret : m.opcode = 0x00EE → 1 ≤ m.Registers.SP ∧ m.Registers.SP ≤ 16)
    (hcall : m.opcode >>> 12 = 0x2 → m.Registers.SP ≤ 15)
    (hdrw : m.opcode >>> 12 = 0xD →
      m.v (OPCODE_X m) % 64 ≤ 56 ∧ m.v (OPCODE_Y m) % 32 + OPCODE_N m ≤ 32 ∧
      m.Registers.I + OPCODE_N m ≤ 4096)
    (hkey : m.opcode >>> 12 = 0xE →
      (m.opcode &&& 0x00FF = 0x9E ∨ m.opcode &&& 0x00FF = 0xA1) → m.v (OPCODE_X m) ≤ 15)
    (hbcd : m.opcode >>> 12 = 0xF → m.opcode &&& 0x00FF = 0x33 → m.Registers.I + 2 ≤ 4095)
    (hmem : m.opcode >>> 12 = 0xF →
      (m.opcode &&& 0x00FF = 0x55 ∨ m.opcode &&& 0x00FF = 0x65) →
      m.Registers.I + OPCODE_X m ≤ 4095) :
    ∃ m', execute_instruction m = some (m', Errorable.STATUS_OK) := by
  have key : ∀ o : Option Chip8Machine, (∃ m', o = some m') →
      ∃ m', o.map (fun machine => (machine, Errorable.STATUS_OK))
        = some (m', Errorable.STATUS_OK) := by
    rintro _ ⟨m', rfl⟩
    exact ⟨m', rfl⟩
  have hXle : OPCODE_X m ≤ 15 := by rw [OPCODE_X_eq]; omega
  by_cases hD : m.opcode >>> 12 = 0xD
  · obtain ⟨h1, h2, h3⟩ := hdrw hD
    have hfam := hD
    rw [family_eq] at hfam
    have hX := OPCODE_X_eq m
    have hY := OPCODE_Y_eq m
    have hN := OPCODE_N_eq m
    obtain ⟨m', hexec, -⟩ := OP_Dxyn_frame m (OPCODE_X m) (OPCODE_Y m) (OPCODE_N m)
      (m.v (OPCODE_X m) % 64) (m.v (OPCODE_Y m) % 32)
      (by omega) (by omega) (by omega) (by omega) rfl rfl (by omega) h2 h3
    exact ⟨m', hexec⟩
  · unfold execute_instruction
    apply key
    split
    all_goals try (exact ⟨_, rfl⟩)
    · split_ifs with h0 h1
      · exact ⟨_, rfl⟩
      · obtain ⟨hs1, hs2⟩ := hret h1
        unfold OP_00EE
        simp only []
        rw [if_pos (by unfold STACK_SIZE; omega)]
        exact ⟨_, rfl⟩
      · exact ⟨_, rfl⟩
    · have := hcall (by assumption)
      unfold OP_2nnn
      rw [if_pos (by unfold STACK_SIZE; omega)]
      exact ⟨_, rfl⟩
    · split
      all_goals exact ⟨_, rfl⟩
    · exact absurd (by assumption) hD
    · split
      · have := hkey (by assumption) (Or.inl (by assumption))
        unfold OP_Ex9E
        rw [if_pos (by unfold KEYPAD_SIZE; omega)]
        split_ifs <;> exact ⟨_, rfl⟩
      · have := hkey (by assumption) (Or.inr (by assumption))
        unfold OP_ExA1
        rw [if_pos (by unfold KEYPAD_SIZE; omega)]
        split_ifs <;> exact ⟨_, rfl⟩
      · exact ⟨_, rfl⟩
    · split
      all_goals try (exact ⟨_, rfl⟩)
      · exact ⟨_, OP_Fx33_eq m (hbcd (by assumption) (by assumption))⟩
      · have := hmem (by assumption) (Or.inl (by assumption))
        obtain ⟨m', hrun, -⟩ := Fx55_loop_spec (OPCODE_X m + 1) 0 m (by omega)
        exact ⟨m', hrun⟩
      · have := hmem (by assumption) (Or.inr (by assumption))
        obtain ⟨m', hrun, -⟩ := Fx65_loop_spec (OPCODE_X m + 1) 0 m (by omega) (by omega)
        exact ⟨m', hrun⟩

end Chiplib
